import Mathlib

/-!
Shallow embedding of the paint-shop color-sequencing simulator
(`server.cjs`): a discrete-time engine that distributes cars of discrete
colors into capacity-bounded buffer lanes feeding two ovens and releases
them through a single-slot main conveyor.

Randomness (`Math.random()`) is modelled by explicit oracle parameters:
a swap-index oracle for the Fisher-Yates shuffle, a `Bool` per oven
choice, a `Nat` pick for the breakdown victim, and a `Bool` for whether
the 2% breakdown roll fires.  Wall-clock time (`Date.now()`) is passed
as an explicit `now : Nat` (milliseconds).  The `setTimeout` recovery
callback is modelled as a separate operation `recoverLine`.
-/

namespace PaintShop

/-- A car is just its color token (the code stores strings `C1`..`C12`). -/
abbrev Car := String

/-- Lane status: the code stores the strings `active`, `full`, `unavailable`. -/
inductive LineStatus where
  | active
  | full
  | unavailable
deriving DecidableEq, Repr

/-- Oven status: the code stores the strings `active` / `stopped`. -/
inductive OvenStatus where
  | active
  | stopped
deriving DecidableEq, Repr

/-- One buffer lane, mirroring the per-lane record in `this.lines`. -/
structure Line where
  status : LineStatus
  cars : List Car
  capacity : Nat
  oven : String
  lastBreakdown : Nat
deriving DecidableEq, Repr

/-- One oven, mirroring the per-oven record in `this.ovens`. -/
structure Oven where
  status : OvenStatus
  lastToggle : Nat
deriving DecidableEq, Repr

/-- The simulator's whole mutable state (`ColorSequencingSimulator`).
Lanes are an ordered dictionary in the code; since its key set is fixed
after `reset`, we model it as a function `String → Line` together with
the fixed iteration order `lineIds`. -/
structure SimState where
  isRunning : Bool
  isPaused : Bool
  totalCarsProcessed : Nat
  processedThisHour : Nat
  hourStartTime : Nat
  recentSequence : List Car
  carBuffer : List Car
  ovenO1 : Oven
  ovenO2 : Oven
  lines : String → Line
  mainFeedingFrom : Option String
  mainCurrentCar : Option Car
  lastFedLine : Option String
  activeAlerts : Nat

/-- Iteration order of `Object.keys(this.lines)` (insertion order, fixed
at reset and never changed afterwards). -/
def lineIds : List String :=
  ["L1", "L2", "L3", "L4", "L5", "L6", "L7", "L8", "L9"]

/-- `COLOR_DISTRIBUTION` from the code. -/
def colorDistribution : List (Car × Nat) :=
  [("C1", 25), ("C2", 20), ("C3", 15), ("C4", 15), ("C5", 12), ("C6", 8),
   ("C7", 7), ("C8", 6), ("C9", 4), ("C10", 3), ("C11", 3), ("C12", 2)]

/-- The car buffer before shuffling: each `(color, count)` pair expanded
in table order (`COLOR_DISTRIBUTION.forEach` pushing `count` copies). -/
def initialCarBuffer : List Car :=
  colorDistribution.flatMap (fun p => List.replicate p.2 p.1)

/-- `[array[i], array[j]] = [array[j], array[i]]`. -/
def swapList (l : List α) (i j : Nat) : List α :=
  match l.get? i, l.get? j with
  | some a, some b => (l.set i b).set j a
  | _, _ => l

/-- The Fisher-Yates loop of `shuffleArray`: for `i` from `n` down to `1`,
swap index `i` with index `js i % (i+1)` (the code draws
`Math.floor(Math.random() * (i + 1))`, a uniform index in `[0, i]`). -/
def shuffleGo (js : Nat → Nat) : Nat → List α → List α
  | 0, l => l
  | i + 1, l => shuffleGo js i (swapList l (i + 1) (js (i + 1) % (i + 2)))

/-- `shuffleArray`, with the random draws supplied by the oracle `js`. -/
def shuffleArray (js : Nat → Nat) (l : List α) : List α :=
  shuffleGo js (l.length - 1) l

/-- The lane table installed by `reset` (`L1`..`L4` capacity 14 on `O1`,
`L5`..`L9` capacity 16 on `O2`); ids outside the table get the `L1`
record, which is never observed because every access goes through
`lineIds`. -/
def resetLines : String → Line := fun id =>
  if id = "L5" ∨ id = "L6" ∨ id = "L7" ∨ id = "L8" ∨ id = "L9" then
    { status := .active, cars := [], capacity := 16, oven := "O2", lastBreakdown := 0 }
  else
    { status := .active, cars := [], capacity := 14, oven := "O1", lastBreakdown := 0 }

/-- `reset()`. -/
def reset (now : Nat) (js : Nat → Nat) : SimState :=
  { isRunning := false
    isPaused := false
    totalCarsProcessed := 0
    processedThisHour := 0
    hourStartTime := now
    recentSequence := []
    carBuffer := shuffleArray js initialCarBuffer
    ovenO1 := { status := .active, lastToggle := now }
    ovenO2 := { status := .active, lastToggle := now }
    lines := resetLines
    mainFeedingFrom := none
    mainCurrentCar := none
    lastFedLine := none
    activeAlerts := 0 }

/-- `start()`. -/
def start (s : SimState) : SimState :=
  { s with isRunning := true, isPaused := false }

/-- `pause()`. -/
def pause (s : SimState) : SimState :=
  { s with isPaused := true }

/-- Status of the oven named `ovenId` (`this.ovens[ovenId].status`). -/
def SimState.ovenStatus (s : SimState) (ovenId : String) : OvenStatus :=
  if ovenId = "O1" then s.ovenO1.status else s.ovenO2.status

/-- Pointwise update of one lane, as in `this.lines[lineId].x = v`. -/
def updateLine (id : String) (f : Line → Line) (lines : String → Line) :
    String → Line :=
  fun j => if j = id then f (lines j) else lines j

/-- `simulateBreakdown()`: with the victim pick supplied as an oracle
index into the filtered list of `active` lanes. -/
def simulateBreakdown (now pick : Nat) (s : SimState) : SimState :=
  let activeLines := lineIds.filter (fun id => decide ((s.lines id).status = .active))
  if activeLines.length > 2 then
    match activeLines.get? (pick % activeLines.length) with
    | some randomLine =>
      if now - (s.lines randomLine).lastBreakdown > 15000 then
        let mark := fun (l : Line) => { l with status := .unavailable, lastBreakdown := now }
        { s with lines := updateLine randomLine mark s.lines }
      else s
    | none => s
  else s

/-- The `setTimeout` recovery callback scheduled by `simulateBreakdown`:
restore the lane to `active` only if it is still `unavailable`. -/
def recoverLine (id : String) (s : SimState) : SimState :=
  if (s.lines id).status = .unavailable then
    { s with lines := updateLine id (fun l => { l with status := .active }) s.lines }
  else s

/-- `getAvailableLines(ovenId)`: ids of lanes on that oven whose status
is not `unavailable`, in lane iteration order. -/
def getAvailableLines (s : SimState) (ovenId : String) : List String :=
  lineIds.filter (fun id =>
    decide ((s.lines id).oven = ovenId ∧ (s.lines id).status ≠ .unavailable))

/-- Stable insertion (ascending by a `Nat` key): models one step of the
stable `Array.prototype.sort` with comparator `(a, b) => key a - key b`
(ECMAScript sort is stable, so equal keys keep their original order). -/
def insertAsc (k : α → Nat) (x : α) : List α → List α
  | [] => [x]
  | y :: ys => if k x ≤ k y then x :: y :: ys else y :: insertAsc k x ys

/-- Stable ascending sort by a `Nat` key. -/
def sortAsc (k : α → Nat) : List α → List α
  | [] => []
  | x :: xs => insertAsc k x (sortAsc k xs)

/-- First element of the list attaining the minimal key (ties go to the
earlier element).  Used only in specification statements. -/
def firstMinBy (k : α → Nat) : List α → Option α
  | [] => none
  | x :: xs =>
    match firstMinBy k xs with
    | none => some x
    | some m => if k x ≤ k m then some x else some m

/-- Stable insertion (descending by a `Nat` key): models one step of the
stable `sort` with comparator `(a, b) => key b - key a`. -/
def insertDesc (k : α → Nat) (x : α) : List α → List α
  | [] => [x]
  | y :: ys => if k y ≤ k x then x :: y :: ys else y :: insertDesc k x ys

/-- Stable descending sort by a `Nat` key. -/
def sortDesc (k : α → Nat) : List α → List α
  | [] => []
  | x :: xs => insertDesc k x (sortDesc k xs)

/-- First element of the list attaining the maximal key (ties go to the
earlier element).  Used only in specification statements. -/
def firstMaxBy (k : α → Nat) : List α → Option α
  | [] => none
  | x :: xs =>
    match firstMaxBy k xs with
    | none => some x
    | some m => if k m ≤ k x then some x else some m

/-- `findBestLine(color, ovenId)`: first any continuation lane (last
pushed car equals `color`, spare capacity), else the least-filled lane
with spare capacity after the stable sort by occupancy, else `null`. -/
def findBestLine (s : SimState) (color : Car) (ovenId : String) : Option String :=
  let availableLines := getAvailableLines s ovenId
  match availableLines.find? (fun id =>
      decide ((s.lines id).cars.length > 0 ∧
        (s.lines id).cars.getLast? = some color ∧
        (s.lines id).cars.length < (s.lines id).capacity)) with
  | some lineWithSameColor => some lineWithSameColor
  | none =>
    let notFullLines := availableLines.filter (fun id =>
      decide ((s.lines id).cars.length < (s.lines id).capacity))
    if notFullLines = [] then none
    else (sortAsc (fun id => (s.lines id).cars.length) notFullLines).head?

/-- `this.lines[lineId].cars.push(car)`. -/
def pushCar (id : String) (car : Car) (s : SimState) : SimState :=
  { s with lines := updateLine id (fun l => { l with cars := l.cars ++ [car] }) s.lines }

/-- One iteration of the `processIncomingCars` loop: shift a car off the
buffer, pick a primary oven by the oracle `choice` (`true` = `O1`), and
place or requeue the car.  Also returns the car that was shifted (for
reasoning about which car each iteration dequeued). -/
def allocOneT (choice : Bool) (s : SimState) : SimState × Option Car :=
  match s.carBuffer with
  | [] => (s, none)
  | car :: rest =>
    let s1 : SimState := { s with carBuffer := rest }
    let ovenId := if choice then "O1" else "O2"
    let alternateOven := if ovenId = "O1" then "O2" else "O1"
    if s1.ovenStatus ovenId ≠ .active then
      if s1.ovenStatus alternateOven = .active then
        match findBestLine s1 car alternateOven with
        | some lineId => (pushCar lineId car s1, some car)
        | none => ({ s1 with carBuffer := car :: s1.carBuffer }, some car)
      else
        ({ s1 with carBuffer := car :: s1.carBuffer }, some car)
    else
      match findBestLine s1 car ovenId with
      | some lineId => (pushCar lineId car s1, some car)
      | none =>
        match findBestLine s1 car alternateOven with
        | some alternateLineId => (pushCar alternateLineId car s1, some car)
        | none =>
          let s2 : SimState := { s1 with carBuffer := car :: s1.carBuffer }
          ({ s2 with activeAlerts := s2.activeAlerts + 1 }, some car)

/-- State part of one allocation iteration. -/
def allocOne (choice : Bool) (s : SimState) : SimState :=
  (allocOneT choice s).1

/-- The status recomputation at the end of `processIncomingCars`: a lane
at (or beyond) capacity becomes `full`; a `full` lane below capacity
becomes `active`; anything else is untouched. -/
def recomputeLine (l : Line) : Line :=
  if l.cars.length ≥ l.capacity then { l with status := .full }
  else if l.status = .full then { l with status := .active }
  else l

/-- Apply `recomputeLine` to every lane (`Object.keys(this.lines).forEach`). -/
def recomputeAll (s : SimState) : SimState :=
  { s with lines := fun id => recomputeLine (s.lines id) }

/-- `processIncomingCars()`, also returning the list of cars the loop
shifted off the buffer, in order.  `carsToProcess = min(2, len)` is
computed before the loop, so the loop can shift the same car twice when
a failed allocation requeued it at the front. -/
def processIncomingCarsT (c1 c2 : Bool) (s : SimState) : SimState × List Car :=
  if s.carBuffer.length = 0 then (s, [])
  else
    let carsToProcess := min 2 s.carBuffer.length
    let r1 := allocOneT c1 s
    if carsToProcess = 2 then
      let r2 := allocOneT c2 r1.1
      (recomputeAll r2.1, r1.2.toList ++ r2.2.toList)
    else
      (recomputeAll r1.1, r1.2.toList)

/-- State part of `processIncomingCars()`. -/
def processIncomingCars (c1 c2 : Bool) (s : SimState) : SimState :=
  (processIncomingCarsT c1 c2 s).1

/-- Candidate lanes for release: status not `unavailable` and at least
one queued car, in lane iteration order. -/
def candidateLines (s : SimState) : List String :=
  lineIds.filter (fun id =>
    decide ((s.lines id).status ≠ .unavailable ∧ (s.lines id).cars.length > 0))

/-- Front-of-queue color of a lane (`this.lines[lineId].cars[0]`); only
consulted on lanes with a nonempty queue. -/
def frontColor (s : SimState) (id : String) : Car :=
  (s.lines id).cars.headD ""

/-- `colorGroups[color].push(lineId)` with on-demand group creation:
append to the group keyed by `c` if present, otherwise append a new
group at the end (JS object insertion order). -/
def addToGroups [DecidableEq β] (gs : List (β × List α)) (c : β) (x : α) :
    List (β × List α) :=
  match gs with
  | [] => [(c, [x])]
  | (c', ids) :: rest =>
    if c' = c then (c', ids ++ [x]) :: rest
    else (c', ids) :: addToGroups rest c x

/-- The `colorGroups` table of `selectNextLine`, as an ordered list of
`(front color, lanes)` groups. -/
def colorGroups (s : SimState) : List (Car × List String) :=
  (candidateLines s).foldl (fun gs id => addToGroups gs (frontColor s id) id) []

/-- A group's run weight: across the group's lanes, the number of cars
of the group's color anywhere in the queue (`cars.filter(c => c === color).length`). -/
def groupWeight (s : SimState) (g : Car × List String) : Nat :=
  g.2.foldl (fun sum id =>
    sum + ((s.lines id).cars.filter (fun c => decide (c = g.1))).length) 0

/-- `selectNextLine()`: sort the color groups by descending run weight
(stable) and return the first lane of the best group. -/
def selectNextLine (s : SimState) : Option String :=
  let availableLines := candidateLines s
  if availableLines = [] then none
  else
    match sortDesc (groupWeight s) (colorGroups s) with
    | bestGroup :: _ => bestGroup.2.head?
    | [] => availableLines.head?

/-- `processMainLine()`: with an empty conveyor slot, pop the front car
of the selected lane into the slot (demoting a `full` lane back to
`active` if it regained spare capacity); with an occupied slot, retire
the occupant into `recentSequence` (bounded to 15 by evicting the
oldest) and bump both processed counters. -/
def processMainLine (s : SimState) : SimState :=
  match s.mainCurrentCar with
  | none =>
    match selectNextLine s with
    | some nextLine =>
      match (s.lines nextLine).cars with
      | [] => s
      | car :: _ =>
        let s1 : SimState :=
          { s with
            lines := updateLine nextLine (fun l => { l with cars := l.cars.tail }) s.lines
            mainCurrentCar := some car
            mainFeedingFrom := some nextLine }
        if (s1.lines nextLine).status = .full ∧
            (s1.lines nextLine).cars.length < (s1.lines nextLine).capacity then
          { s1 with lines := updateLine nextLine (fun l => { l with status := .active }) s1.lines }
        else s1
    | none => s
  | some car =>
    let rs := s.recentSequence ++ [car]
    { s with
      recentSequence := if rs.length > 15 then rs.tail else rs
      totalCarsProcessed := s.totalCarsProcessed + 1
      processedThisHour := s.processedThisHour + 1
      mainCurrentCar := none
      mainFeedingFrom := none }

/-- The alert recomputation at the end of `tick()`: number of lanes
whose status is `full` or `unavailable`. -/
def countAlerts (lines : String → Line) : Nat :=
  (lineIds.filter (fun id =>
    decide ((lines id).status = .full ∨ (lines id).status = .unavailable))).length

/-- `tick()`: no-op unless running and not paused; otherwise breakdown
roll, allocation, main-line advance, rolling-hour reset, and the alert
recomputation, in that order. -/
def tick (now : Nat) (doBreakdown : Bool) (pick : Nat) (c1 c2 : Bool)
    (s : SimState) : SimState :=
  if s.isRunning = false ∨ s.isPaused = true then s
  else
    let s1 := if doBreakdown then simulateBreakdown now pick s else s
    let s2 := processIncomingCars c1 c2 s1
    let s3 := processMainLine s2
    let s4 :=
      if 3600000 ≤ now - s3.hourStartTime then
        { s3 with processedThisHour := 0, hourStartTime := now }
      else s3
    { s4 with activeAlerts := countAlerts s4.lines }

/-- Snapshot view of one lane in the `/api/live_status` response. -/
structure LineView where
  status : LineStatus
  cars : List Car
  count : Nat
  capacity : Nat
deriving DecidableEq, Repr

/-- The `/api/live_status` JSON shape produced by `getStatus()`. -/
structure StatusView where
  jph : Rat
  total_cars_processed : Nat
  active_alerts : Nat
  recent_sequence : List Car
  ovenO1 : Oven
  ovenO2 : Oven
  lines : List (String × LineView)
  feeding_from : Option String
  current_car : Option Car
  is_running : Bool
  is_paused : Bool
deriving DecidableEq, Repr

/-- `Math.round(x * 10) / 10` (JS rounds half toward positive infinity). -/
def jsRound1 (q : Rat) : Rat :=
  ((⌊q * 10 + 1 / 2⌋ : Int) : Rat) / 10

/-- `getStatus()`: build the immutable snapshot; `jph` is
`processedThisHour / hoursElapsed` (0 when no time has elapsed),
rounded to one decimal. -/
def getStatus (now : Nat) (s : SimState) : StatusView :=
  let hourElapsed : Rat := ((now - s.hourStartTime : Nat) : Rat) / 1000 / 3600
  let jph : Rat := if 0 < hourElapsed then (s.processedThisHour : Rat) / hourElapsed else 0
  { jph := jsRound1 jph
    total_cars_processed := s.totalCarsProcessed
    active_alerts := s.activeAlerts
    recent_sequence := s.recentSequence
    ovenO1 := s.ovenO1
    ovenO2 := s.ovenO2
    lines := lineIds.map (fun id =>
      (id, { status := (s.lines id).status
             cars := (s.lines id).cars
             count := (s.lines id).cars.length
             capacity := (s.lines id).capacity }))
    feeding_from := s.mainFeedingFrom
    current_car := s.mainCurrentCar
    is_running := s.isRunning
    is_paused := s.isPaused }

/-- The operations that can hit a live simulator between two resets:
the periodic tick, the `start` / `pause` commands, and the independent
breakdown-recovery timer. -/
inductive SimOp where
  | tickOp (now : Nat) (doBreakdown : Bool) (pick : Nat) (c1 c2 : Bool)
  | startOp
  | pauseOp
  | recoverOp (id : String)

/-- Apply one operation. -/
def applyOp : SimOp → SimState → SimState
  | .tickOp now doBreakdown pick c1 c2, s => tick now doBreakdown pick c1 c2 s
  | .startOp, s => start s
  | .pauseOp, s => pause s
  | .recoverOp id, s => recoverLine id s

/-- Run a sequence of operations, oldest first. -/
def run (s : SimState) (ops : List SimOp) : SimState :=
  ops.foldl (fun s op => applyOp op s) s

/-- States reachable from some reset through the simulator's operations. -/
inductive Reachable : SimState → Prop where
  | reset : ∀ now js, Reachable (reset now js)
  | step : ∀ s op, Reachable s → Reachable (applyOp op s)

/-! ### Lemmas about the stable sorts -/

theorem insertAsc_ne_nil (k : α → Nat) (x : α) (l : List α) :
    insertAsc k x l ≠ [] := by
  cases l with
  | nil => simp [insertAsc]
  | cons y ys =>
    simp only [insertAsc]
    split <;> simp

theorem sortAsc_eq_nil_iff (k : α → Nat) (l : List α) :
    sortAsc k l = [] ↔ l = [] := by
  cases l with
  | nil => simp [sortAsc]
  | cons x xs =>
    simp only [sortAsc]
    exact ⟨fun h => absurd h (insertAsc_ne_nil k x _), fun h => by simp at h⟩

theorem mem_insertAsc {k : α → Nat} {x a : α} {l : List α} :
    a ∈ insertAsc k x l ↔ a = x ∨ a ∈ l := by
  induction l with
  | nil => simp [insertAsc]
  | cons y ys ih =>
    simp only [insertAsc]
    split
    · simp [List.mem_cons]
    · simp only [List.mem_cons, ih]
      tauto

theorem mem_sortAsc {k : α → Nat} {a : α} {l : List α} :
    a ∈ sortAsc k l ↔ a ∈ l := by
  induction l with
  | nil => simp [sortAsc]
  | cons x xs ih =>
    simp only [sortAsc, mem_insertAsc, ih, List.mem_cons]

theorem insertAsc_head? (k : α → Nat) (x : α) (l : List α) :
    (insertAsc k x l).head? =
      match l.head? with
      | none => some x
      | some y => if k x ≤ k y then some x else some y := by
  cases l with
  | nil => rfl
  | cons y ys =>
    simp only [insertAsc]
    by_cases h : k x ≤ k y
    · rw [if_pos h]
      simp [h]
    · rw [if_neg h]
      simp [h]

theorem head?_sortAsc (k : α → Nat) (l : List α) :
    (sortAsc k l).head? = firstMinBy k l := by
  induction l with
  | nil => rfl
  | cons x xs ih =>
    simp only [sortAsc, insertAsc_head?, ih, firstMinBy]

theorem firstMinBy_eq_none_iff (k : α → Nat) (l : List α) :
    firstMinBy k l = none ↔ l = [] := by
  cases l with
  | nil => simp [firstMinBy]
  | cons x xs =>
    simp only [firstMinBy]
    cases hx : firstMinBy k xs with
    | none => simp
    | some m => by_cases hle : k x ≤ k m <;> simp [hle]

theorem firstMinBy_spec {k : α → Nat} {l : List α} {m : α}
    (h : firstMinBy k l = some m) :
    ∃ t₁ t₂, l = t₁ ++ m :: t₂ ∧ (∀ y ∈ t₁, k m < k y) ∧ ∀ y ∈ l, k m ≤ k y := by
  induction l generalizing m with
  | nil => simp [firstMinBy] at h
  | cons x xs ih =>
    simp only [firstMinBy] at h
    split at h
    · rename_i hx
      have hxs : xs = [] := (firstMinBy_eq_none_iff k xs).mp hx
      cases h
      exact ⟨[], xs, rfl, by simp, by simp [hxs]⟩
    · rename_i m' hx
      obtain ⟨t₁, t₂, heq, hstrict, hmin⟩ := ih hx
      by_cases hle : k x ≤ k m'
      · rw [if_pos hle] at h
        cases h
        refine ⟨[], xs, rfl, by simp, ?_⟩
        intro y hy
        rcases List.mem_cons.mp hy with rfl | hy
        · exact le_refl _
        · exact le_trans hle (hmin y hy)
      · rw [if_neg hle] at h
        cases h
        refine ⟨x :: t₁, t₂, by simp [heq], ?_, ?_⟩
        · intro y hy
          rcases List.mem_cons.mp hy with rfl | hy
          · omega
          · exact hstrict y hy
        · intro y hy
          rcases List.mem_cons.mp hy with rfl | hy
          · omega
          · exact hmin y hy

theorem insertDesc_ne_nil (k : α → Nat) (x : α) (l : List α) :
    insertDesc k x l ≠ [] := by
  cases l with
  | nil => simp [insertDesc]
  | cons y ys =>
    simp only [insertDesc]
    split <;> simp

theorem sortDesc_eq_nil_iff (k : α → Nat) (l : List α) :
    sortDesc k l = [] ↔ l = [] := by
  cases l with
  | nil => simp [sortDesc]
  | cons x xs =>
    simp only [sortDesc]
    exact ⟨fun h => absurd h (insertDesc_ne_nil k x _), fun h => by simp at h⟩

theorem mem_insertDesc {k : α → Nat} {x a : α} {l : List α} :
    a ∈ insertDesc k x l ↔ a = x ∨ a ∈ l := by
  induction l with
  | nil => simp [insertDesc]
  | cons y ys ih =>
    simp only [insertDesc]
    split
    · simp [List.mem_cons]
    · simp only [List.mem_cons, ih]
      tauto

theorem mem_sortDesc {k : α → Nat} {a : α} {l : List α} :
    a ∈ sortDesc k l ↔ a ∈ l := by
  induction l with
  | nil => simp [sortDesc]
  | cons x xs ih =>
    simp only [sortDesc, mem_insertDesc, ih, List.mem_cons]

theorem insertDesc_head? (k : α → Nat) (x : α) (l : List α) :
    (insertDesc k x l).head? =
      match l.head? with
      | none => some x
      | some y => if k y ≤ k x then some x else some y := by
  cases l with
  | nil => rfl
  | cons y ys =>
    simp only [insertDesc]
    by_cases h : k y ≤ k x
    · rw [if_pos h]
      simp [h]
    · rw [if_neg h]
      simp [h]

theorem head?_sortDesc (k : α → Nat) (l : List α) :
    (sortDesc k l).head? = firstMaxBy k l := by
  induction l with
  | nil => rfl
  | cons x xs ih =>
    simp only [sortDesc, insertDesc_head?, ih, firstMaxBy]

theorem firstMaxBy_eq_none_iff (k : α → Nat) (l : List α) :
    firstMaxBy k l = none ↔ l = [] := by
  cases l with
  | nil => simp [firstMaxBy]
  | cons x xs =>
    simp only [firstMaxBy]
    cases hx : firstMaxBy k xs with
    | none => simp
    | some m => by_cases hle : k m ≤ k x <;> simp [hle]

theorem firstMaxBy_spec {k : α → Nat} {l : List α} {m : α}
    (h : firstMaxBy k l = some m) :
    ∃ t₁ t₂, l = t₁ ++ m :: t₂ ∧ (∀ y ∈ t₁, k y < k m) ∧ ∀ y ∈ l, k y ≤ k m := by
  induction l generalizing m with
  | nil => simp [firstMaxBy] at h
  | cons x xs ih =>
    simp only [firstMaxBy] at h
    split at h
    · rename_i hx
      have hxs : xs = [] := (firstMaxBy_eq_none_iff k xs).mp hx
      cases h
      exact ⟨[], xs, rfl, by simp, by simp [hxs]⟩
    · rename_i m' hx
      obtain ⟨t₁, t₂, heq, hstrict, hmax⟩ := ih hx
      by_cases hle : k m' ≤ k x
      · rw [if_pos hle] at h
        cases h
        refine ⟨[], xs, rfl, by simp, ?_⟩
        intro y hy
        rcases List.mem_cons.mp hy with rfl | hy
        · exact le_refl _
        · exact le_trans (hmax y hy) hle
      · rw [if_neg hle] at h
        cases h
        refine ⟨x :: t₁, t₂, by simp [heq], ?_, ?_⟩
        · intro y hy
          rcases List.mem_cons.mp hy with rfl | hy
          · omega
          · exact hstrict y hy
        · intro y hy
          rcases List.mem_cons.mp hy with rfl | hy
          · omega
          · exact hmax y hy

/-! ### Characterization of the color grouping -/

/-- Well-formedness of a group table built from `l` by keying each
element on `f`: each group's members are exactly the elements of `l`
with that key, in `l` order; groups are nonempty; keys are distinct;
every element of `l` has a group. -/
structure GroupsWF (f : α → β) [DecidableEq β] (l : List α)
    (gs : List (β × List α)) : Prop where
  ids_eq : ∀ g ∈ gs, g.2 = l.filter (fun a => decide (f a = g.1))
  ids_ne : ∀ g ∈ gs, g.2 ≠ []
  keys_nodup : (gs.map Prod.fst).Nodup
  covers : ∀ a ∈ l, ∃ g ∈ gs, g.1 = f a

theorem addToGroups_of_not_mem [DecidableEq β] {gs : List (β × List α)}
    {c : β} (x : α) (h : c ∉ gs.map Prod.fst) :
    addToGroups gs c x = gs ++ [(c, [x])] := by
  induction gs with
  | nil => rfl
  | cons g rest ih =>
    obtain ⟨c', ids⟩ := g
    simp only [List.map_cons, List.mem_cons] at h
    push_neg at h
    simp only [addToGroups, if_neg (Ne.symm h.1)]
    rw [ih h.2]
    rfl

theorem map_edit_of_not_mem [DecidableEq β] {rest : List (β × List α)} {c : β}
    (x : α) (h : c ∉ rest.map Prod.fst) :
    rest.map (fun g => if g.1 = c then (g.1, g.2 ++ [x]) else g) = rest := by
  induction rest with
  | nil => rfl
  | cons g t ih =>
    simp only [List.map_cons, List.mem_cons] at h
    push_neg at h
    simp only [List.map_cons, if_neg (Ne.symm h.1)]
    rw [ih h.2]

theorem addToGroups_of_mem [DecidableEq β] {gs : List (β × List α)}
    {c : β} (x : α) (hnd : (gs.map Prod.fst).Nodup) (h : c ∈ gs.map Prod.fst) :
    addToGroups gs c x =
      gs.map (fun g => if g.1 = c then (g.1, g.2 ++ [x]) else g) := by
  induction gs with
  | nil => simp at h
  | cons g rest ih =>
    obtain ⟨c', ids⟩ := g
    simp only [List.map_cons, List.nodup_cons] at hnd
    by_cases hc : c' = c
    · subst hc
      simp only [addToGroups, if_pos rfl, List.map_cons, if_pos rfl]
      rw [map_edit_of_not_mem x hnd.1]
      simp
    · simp only [List.map_cons, List.mem_cons] at h
      rcases h with h | h
      · exact absurd h.symm hc
      · simp only [addToGroups, if_neg hc, List.map_cons, if_neg hc]
        rw [ih hnd.2 h]

theorem addToGroups_wf {f : α → β} [DecidableEq β] {l : List α}
    {gs : List (β × List α)} (hwf : GroupsWF f l gs) (x : α) :
    GroupsWF f (l ++ [x]) (addToGroups gs (f x) x) := by
  by_cases hmem : f x ∈ gs.map Prod.fst
  · rw [addToGroups_of_mem x hwf.keys_nodup hmem]
    have hfst : ∀ g : β × List α,
        (if g.1 = f x then (g.1, g.2 ++ [x]) else g).1 = g.1 := by
      intro g
      split <;> rfl
    refine ⟨?_, ?_, ?_, ?_⟩
    · intro g hg
      simp only [List.mem_map] at hg
      obtain ⟨g0, hg0, rfl⟩ := hg
      by_cases hc : g0.1 = f x
      · simp only [if_pos hc]
        rw [hwf.ids_eq g0 hg0, List.filter_append]
        simp [hc]
      · simp only [if_neg hc]
        rw [hwf.ids_eq g0 hg0, List.filter_append]
        have : ¬ (f x = g0.1) := fun he => hc he.symm
        simp [this]
    · intro g hg
      simp only [List.mem_map] at hg
      obtain ⟨g0, hg0, rfl⟩ := hg
      by_cases hc : g0.1 = f x
      · simp only [if_pos hc]
        simp
      · simp only [if_neg hc]
        exact hwf.ids_ne g0 hg0
    · rw [List.map_map]
      have : (Prod.fst ∘ fun g : β × List α =>
          if g.1 = f x then (g.1, g.2 ++ [x]) else g) = Prod.fst := by
        funext g
        exact hfst g
      rw [this]
      exact hwf.keys_nodup
    · intro a ha
      rcases List.mem_append.mp ha with ha | ha
      · obtain ⟨g, hg, hgf⟩ := hwf.covers a ha
        refine ⟨(if g.1 = f x then (g.1, g.2 ++ [x]) else g), List.mem_map_of_mem _ hg, ?_⟩
        rw [hfst g]
        exact hgf
      · simp only [List.mem_singleton] at ha
        subst ha
        simp only [List.mem_map] at hmem
        obtain ⟨g, hg, hgf⟩ := hmem
        refine ⟨(if g.1 = f a then (g.1, g.2 ++ [a]) else g), List.mem_map_of_mem _ hg, ?_⟩
        rw [hfst g]
        exact hgf
  · rw [addToGroups_of_not_mem x hmem]
    refine ⟨?_, ?_, ?_, ?_⟩
    · intro g hg
      rcases List.mem_append.mp hg with hg | hg
      · have hne : ¬ (f x = g.1) := by
          intro he
          exact hmem (he ▸ List.mem_map_of_mem Prod.fst hg)
        rw [hwf.ids_eq g hg, List.filter_append]
        simp [hne]
      · simp only [List.mem_singleton] at hg
        subst hg
        have hnil : l.filter (fun a => decide (f a = f x)) = [] := by
          rw [List.filter_eq_nil_iff]
          intro a ha hfa
          simp only [decide_eq_true_eq] at hfa
          obtain ⟨g, hg, hgf⟩ := hwf.covers a ha
          exact hmem (by
            rw [← hfa, ← hgf]
            exact List.mem_map_of_mem Prod.fst hg)
        rw [List.filter_append, hnil]
        simp
    · intro g hg
      rcases List.mem_append.mp hg with hg | hg
      · exact hwf.ids_ne g hg
      · simp only [List.mem_singleton] at hg
        subst hg
        simp
    · rw [List.map_append]
      rw [List.nodup_append]
      refine ⟨hwf.keys_nodup, by simp, ?_⟩
      intro c' hc' hc''
      simp only [List.map_cons, List.map_nil, List.mem_singleton] at hc''
      subst hc''
      exact hmem hc'
    · intro a ha
      rcases List.mem_append.mp ha with ha | ha
      · obtain ⟨g, hg, hgf⟩ := hwf.covers a ha
        exact ⟨g, List.mem_append_left _ hg, hgf⟩
      · simp only [List.mem_singleton] at ha
        subst ha
        exact ⟨(f a, [a]), List.mem_append_right _ (by simp), rfl⟩

theorem groupFold_wf (f : α → β) [DecidableEq β] (l : List α) :
    GroupsWF f l (l.foldl (fun gs a => addToGroups gs (f a) a) []) := by
  induction l using List.reverseRecOn with
  | nil => exact ⟨by simp, by simp, by simp, by simp⟩
  | append_singleton t x ih =>
    rw [List.foldl_append]
    exact addToGroups_wf ih x

/-- The `colorGroups` table of `selectNextLine` is well formed. -/
theorem colorGroups_wf (s : SimState) :
    GroupsWF (frontColor s) (candidateLines s) (colorGroups s) :=
  groupFold_wf (frontColor s) (candidateLines s)

/-! ### Membership and capacity facts about the selectors -/

theorem getAvailableLines_subset (s : SimState) (ovenId : String) :
    ∀ id ∈ getAvailableLines s ovenId, id ∈ lineIds := by
  intro id hid
  exact List.mem_of_mem_filter hid

theorem mem_getAvailableLines {s : SimState} {ovenId id : String}
    (h : id ∈ getAvailableLines s ovenId) :
    id ∈ lineIds ∧ (s.lines id).oven = ovenId ∧ (s.lines id).status ≠ .unavailable := by
  have := List.mem_filter.mp h
  refine ⟨this.1, ?_⟩
  have := this.2
  simpa using this

theorem candidateLines_subset (s : SimState) :
    ∀ id ∈ candidateLines s, id ∈ lineIds := by
  intro id hid
  exact List.mem_of_mem_filter hid

theorem mem_candidateLines {s : SimState} {id : String}
    (h : id ∈ candidateLines s) :
    id ∈ lineIds ∧ (s.lines id).status ≠ .unavailable ∧ 0 < (s.lines id).cars.length := by
  have := List.mem_filter.mp h
  refine ⟨this.1, ?_⟩
  have := this.2
  simpa using this

theorem findBestLine_mem {s : SimState} {color : Car} {ovenId id : String}
    (h : findBestLine s color ovenId = some id) :
    id ∈ getAvailableLines s ovenId ∧
      (s.lines id).cars.length < (s.lines id).capacity := by
  unfold findBestLine at h
  dsimp only at h
  split at h
  · rename_i lineWithSameColor hfind
    cases h
    have hmem := List.mem_of_find?_eq_some hfind
    have hpred := List.find?_some hfind
    simp only [decide_eq_true_eq] at hpred
    exact ⟨hmem, hpred.2.2⟩
  · rename_i hfind
    split at h
    · cases h
    · rename_i hne
      have hhead : id ∈ sortAsc (fun id => (s.lines id).cars.length)
          ((getAvailableLines s ovenId).filter (fun id =>
            decide ((s.lines id).cars.length < (s.lines id).capacity))) := by
        cases hs : sortAsc (fun id => (s.lines id).cars.length)
            ((getAvailableLines s ovenId).filter (fun id =>
              decide ((s.lines id).cars.length < (s.lines id).capacity))) with
        | nil => rw [hs] at h; cases h
        | cons a t =>
          rw [hs] at h
          cases h
          exact List.mem_cons_self _ _
      have hfil := mem_sortAsc.mp hhead
      have := List.mem_filter.mp hfil
      refine ⟨this.1, by simpa using this.2⟩

theorem selectNextLine_mem {s : SimState} {id : String}
    (h : selectNextLine s = some id) : id ∈ candidateLines s := by
  unfold selectNextLine at h
  dsimp only at h
  split at h
  · cases h
  · rename_i hne
    split at h
    · rename_i g rest hs
      have hg : g ∈ colorGroups s := by
        have : g ∈ sortDesc (groupWeight s) (colorGroups s) := by
          rw [hs]
          exact List.mem_cons_self _ _
        exact mem_sortDesc.mp this
      have hids := (colorGroups_wf s).ids_eq g hg
      have hmem : id ∈ g.2 := by
        cases hg2 : g.2 with
        | nil => rw [hg2] at h; cases h
        | cons a t =>
          rw [hg2] at h
          cases h
          exact List.mem_cons_self _ _
      rw [hids] at hmem
      exact List.mem_of_mem_filter hmem
    · rename_i hs
      cases hc : candidateLines s with
      | nil => exact absurd hc hne
      | cons a t =>
        rw [hc] at h
        cases h
        exact List.mem_cons_self _ _

/-! ### Car counting -/

/-- Total number of cars queued across all lanes. -/
def laneCars (lines : String → Line) : Nat :=
  (lineIds.map (fun id => (lines id).cars.length)).sum

/-- The conserved quantity of the spec: backlog + lanes + conveyor slot
+ retired cars. -/
def carCount (s : SimState) : Nat :=
  s.carBuffer.length + laneCars s.lines +
    (if s.mainCurrentCar.isSome then 1 else 0) + s.totalCarsProcessed

theorem sum_map_exchange {L : List String} (hnd : L.Nodup) {id : String}
    (hid : id ∈ L) (f g : String → Nat)
    (hoth : ∀ j ∈ L, j ≠ id → g j = f j) :
    (L.map g).sum + f id = (L.map f).sum + g id := by
  induction L with
  | nil => cases hid
  | cons a L ih =>
    have hnd' := List.nodup_cons.mp hnd
    rcases List.mem_cons.mp hid with rfl | hmem
    · have heq : ∀ j ∈ L, g j = f j := by
        intro j hj
        exact hoth j (List.mem_cons_of_mem _ hj) (fun hji => hnd'.1 (hji ▸ hj))
      have hmap : L.map g = L.map f := List.map_congr_left heq
      simp only [List.map_cons, List.sum_cons, hmap]
      omega
    · have hne : a ≠ id := fun h => hnd'.1 (h ▸ hmem)
      have := ih hnd'.2 hmem
        (fun j hj hji => hoth j (List.mem_cons_of_mem _ hj) hji)
      simp only [List.map_cons, List.sum_cons]
      rw [hoth a (List.mem_cons_self _ _) hne]
      omega

theorem lineIds_nodup : lineIds.Nodup := by decide

theorem laneCars_update {lines : String → Line} {id : String}
    (hid : id ∈ lineIds) (f : Line → Line) :
    laneCars (updateLine id f lines) + (lines id).cars.length =
      laneCars lines + (f (lines id)).cars.length := by
  unfold laneCars
  have := sum_map_exchange lineIds_nodup hid
    (fun j => (lines j).cars.length)
    (fun j => ((updateLine id f lines) j).cars.length)
    (by
      intro j _ hji
      simp [updateLine, hji])
  simpa [updateLine] using this

theorem laneCars_congr {lines lines' : String → Line}
    (h : ∀ id ∈ lineIds, (lines' id).cars.length = (lines id).cars.length) :
    laneCars lines' = laneCars lines := by
  unfold laneCars
  exact congrArg List.sum (List.map_congr_left h)

/-! ### Structural case analyses of the mutators -/

theorem SimState.eta_carBuffer (s : SimState) (l : List Car) (h : s.carBuffer = l) :
    ({ s with carBuffer := l } : SimState) = s := by
  subst h
  cases s
  rfl

theorem SimState.eta_carBuffer_alerts (s : SimState) (l : List Car) (n : Nat)
    (h : s.carBuffer = l) :
    ({ s with carBuffer := l, activeAlerts := n } : SimState) =
      { s with activeAlerts := n } := by
  subst h
  cases s
  rfl

theorem updateLine_updateLine (id : String) (f g : Line → Line)
    (lines : String → Line) :
    updateLine id g (updateLine id f lines) = updateLine id (fun l => g (f l)) lines := by
  funext j
  unfold updateLine
  by_cases hj : j = id <;> simp [hj]

theorem updateLine_eq_of (id : String) (f g : Line → Line)
    (lines : String → Line) (h : f (lines id) = g (lines id)) :
    updateLine id f lines = updateLine id g lines := by
  funext j
  unfold updateLine
  by_cases hj : j = id
  · subst hj
    simp [h]
  · simp [hj]

/-- Everything one iteration of the allocation loop can do: leave the
state unchanged, requeue the front car and bump the alert counter, or
push the front car onto a lane that had spare capacity. -/
theorem allocOne_cases (c : Bool) (s : SimState) :
    allocOne c s = s ∨
    (s.carBuffer ≠ [] ∧ allocOne c s = { s with activeAlerts := s.activeAlerts + 1 }) ∨
    ∃ car rest lid, s.carBuffer = car :: rest ∧ lid ∈ lineIds ∧
      (s.lines lid).cars.length < (s.lines lid).capacity ∧
      allocOne c s = pushCar lid car { s with carBuffer := rest } := by
  cases hbuf : s.carBuffer with
  | nil =>
    left
    unfold allocOne allocOneT
    rw [hbuf]
  | cons car rest =>
    unfold allocOne allocOneT
    rw [hbuf]
    dsimp only
    repeat' split
    all_goals first
      | exact Or.inl (SimState.eta_carBuffer s (car :: rest) hbuf)
      | exact Or.inr (Or.inl ⟨by simp, rfl⟩)
      | exact Or.inr (Or.inr ⟨car, rest, _, rfl,
          getAvailableLines_subset _ _ _ (findBestLine_mem (by assumption)).1,
          (findBestLine_mem (by assumption)).2, rfl⟩)

/-- Everything `simulateBreakdown` can do: nothing, or mark one `active`
lane whose cooldown has expired. -/
theorem simulateBreakdown_cases (now pick : Nat) (s : SimState) :
    simulateBreakdown now pick s = s ∨
    ∃ rid, rid ∈ lineIds ∧ (s.lines rid).status = .active ∧
      15000 < now - (s.lines rid).lastBreakdown ∧
      simulateBreakdown now pick s =
        { s with lines := updateLine rid (fun l => { l with status := .unavailable, lastBreakdown := now }) s.lines } := by
  unfold simulateBreakdown
  dsimp only
  split
  · split
    · rename_i rid hget
      have hmem : rid ∈ lineIds.filter (fun id => decide ((s.lines id).status = .active)) :=
        List.get?_mem hget
      have hm := List.mem_filter.mp hmem
      split
      · rename_i hcool
        right
        exact ⟨rid, hm.1, by simpa using hm.2, by omega, rfl⟩
      · left; rfl
    · left; rfl
  · left; rfl

/-- Everything `processMainLine` can do: nothing (empty slot, no
dispatchable lane), load the front car of the selected lane into the
empty slot, or retire the occupant of the occupied slot. -/
theorem processMainLine_cases (s : SimState) :
    (s.mainCurrentCar = none ∧ processMainLine s = s) ∨
    (∃ nl car rest st', s.mainCurrentCar = none ∧ selectNextLine s = some nl ∧
      nl ∈ candidateLines s ∧ (s.lines nl).cars = car :: rest ∧
      (st' = (s.lines nl).status ∨ st' = .active) ∧
      processMainLine s =
        { s with
          lines := updateLine nl (fun l => { l with cars := rest, status := st' }) s.lines
          mainCurrentCar := some car
          mainFeedingFrom := some nl }) ∨
    (∃ car, s.mainCurrentCar = some car ∧
      processMainLine s =
        { s with
          recentSequence := if (s.recentSequence ++ [car]).length > 15
            then (s.recentSequence ++ [car]).tail else s.recentSequence ++ [car]
          totalCarsProcessed := s.totalCarsProcessed + 1
          processedThisHour := s.processedThisHour + 1
          mainCurrentCar := none
          mainFeedingFrom := none }) := by
  unfold processMainLine
  cases hmc : s.mainCurrentCar with
  | some car =>
    right; right
    exact ⟨car, rfl, rfl⟩
  | none =>
    cases hsel : selectNextLine s with
    | none =>
      left
      exact ⟨rfl, rfl⟩
    | some nl =>
      have hmem := selectNextLine_mem hsel
      dsimp only
      split
      · left
        exact ⟨rfl, rfl⟩
      · rename_i car rest hcars
        right; left
        split
        · refine ⟨nl, car, rest, .active, rfl, rfl, hmem, hcars, Or.inr rfl, ?_⟩
          have hl : updateLine nl (fun l => { l with status := LineStatus.active })
              (updateLine nl (fun l => { l with cars := l.cars.tail }) s.lines) =
              updateLine nl
                (fun l => { l with cars := rest, status := LineStatus.active }) s.lines := by
            funext j
            unfold updateLine
            by_cases hj : j = nl
            · subst hj
              simp [hcars]
            · simp [hj]
          rw [hl]
        · refine ⟨nl, car, rest, (s.lines nl).status, rfl, rfl, hmem, hcars, Or.inl rfl, ?_⟩
          have hl : updateLine nl (fun l => { l with cars := l.cars.tail }) s.lines =
              updateLine nl
                (fun l => { l with cars := rest, status := (s.lines nl).status }) s.lines := by
            funext j
            unfold updateLine
            by_cases hj : j = nl
            · subst hj
              simp [hcars]
            · simp [hj]
          rw [hl]

/-- `processIncomingCars` is zero, one, or two allocation iterations
followed by the status recomputation. -/
theorem processIncomingCars_cases (c1 c2 : Bool) (s : SimState) :
    processIncomingCars c1 c2 s = s ∨
    processIncomingCars c1 c2 s = recomputeAll (allocOne c1 s) ∨
    processIncomingCars c1 c2 s = recomputeAll (allocOne c2 (allocOne c1 s)) := by
  unfold processIncomingCars processIncomingCarsT
  dsimp only
  split
  · left; rfl
  · split
    · right; right; rfl
    · right; left; rfl

/-! ### Preservation lemmas for the individual mutators -/

theorem allocOne_lines_pres (c : Bool) (s : SimState) (id : String) :
    ((allocOne c s).lines id).status = (s.lines id).status ∧
    ((allocOne c s).lines id).lastBreakdown = (s.lines id).lastBreakdown ∧
    ((allocOne c s).lines id).capacity = (s.lines id).capacity ∧
    ((allocOne c s).lines id).oven = (s.lines id).oven := by
  rcases allocOne_cases c s with h | ⟨_, h⟩ | ⟨car, rest, lid, hbuf, hmem, hlt, h⟩ <;> rw [h]
  · exact ⟨rfl, rfl, rfl, rfl⟩
  · exact ⟨rfl, rfl, rfl, rfl⟩
  · unfold pushCar updateLine
    dsimp only
    by_cases hj : id = lid <;> simp [hj]

theorem allocOne_frame (c : Bool) (s : SimState) :
    (allocOne c s).isRunning = s.isRunning ∧
    (allocOne c s).isPaused = s.isPaused ∧
    (allocOne c s).totalCarsProcessed = s.totalCarsProcessed ∧
    (allocOne c s).processedThisHour = s.processedThisHour ∧
    (allocOne c s).hourStartTime = s.hourStartTime ∧
    (allocOne c s).recentSequence = s.recentSequence ∧
    (allocOne c s).mainCurrentCar = s.mainCurrentCar ∧
    (allocOne c s).mainFeedingFrom = s.mainFeedingFrom ∧
    (allocOne c s).ovenO1 = s.ovenO1 ∧
    (allocOne c s).ovenO2 = s.ovenO2 := by
  rcases allocOne_cases c s with h | ⟨_, h⟩ | ⟨car, rest, lid, hbuf, hmem, hlt, h⟩ <;>
    rw [h] <;> exact ⟨rfl, rfl, rfl, rfl, rfl, rfl, rfl, rfl, rfl, rfl⟩

theorem allocOne_count (c : Bool) (s : SimState) :
    (allocOne c s).carBuffer.length + laneCars (allocOne c s).lines =
      s.carBuffer.length + laneCars s.lines := by
  rcases allocOne_cases c s with h | ⟨_, h⟩ | ⟨car, rest, lid, hbuf, hmem, hlt, h⟩ <;> rw [h]
  · have hupd := @laneCars_update s.lines lid hmem
      (fun l => { l with cars := l.cars ++ [car] })
    unfold pushCar
    dsimp only
    rw [hbuf]
    simp only [List.length_append, List.length_cons, List.length_nil] at hupd ⊢
    omega

theorem allocOne_capacity (c : Bool) (s : SimState)
    (hinv : ∀ id ∈ lineIds, (s.lines id).cars.length ≤ (s.lines id).capacity) :
    ∀ id ∈ lineIds, ((allocOne c s).lines id).cars.length ≤
      ((allocOne c s).lines id).capacity := by
  intro id hid
  rcases allocOne_cases c s with h | ⟨_, h⟩ | ⟨car, rest, lid, hbuf, hmem, hlt, h⟩ <;> rw [h]
  · exact hinv id hid
  · exact hinv id hid
  · unfold pushCar updateLine
    dsimp only
    by_cases hj : id = lid
    · subst hj
      rw [if_pos rfl]
      simp only [List.length_append, List.length_cons, List.length_nil]
      omega
    · simp only [if_neg hj]
      exact hinv id hid

theorem recomputeLine_fields (l : Line) :
    (recomputeLine l).cars = l.cars ∧ (recomputeLine l).capacity = l.capacity ∧
    (recomputeLine l).oven = l.oven ∧ (recomputeLine l).lastBreakdown = l.lastBreakdown := by
  unfold recomputeLine
  repeat' split
  all_goals exact ⟨rfl, rfl, rfl, rfl⟩

theorem recomputeLine_unavailable {l : Line}
    (h : (recomputeLine l).status = .unavailable) : l.status = .unavailable := by
  unfold recomputeLine at h
  split at h
  · simp at h
  · split at h
    · simp at h
    · exact h

theorem recomputeAll_frame (s : SimState) :
    (recomputeAll s).carBuffer = s.carBuffer ∧
    (recomputeAll s).isRunning = s.isRunning ∧
    (recomputeAll s).isPaused = s.isPaused ∧
    (recomputeAll s).totalCarsProcessed = s.totalCarsProcessed ∧
    (recomputeAll s).processedThisHour = s.processedThisHour ∧
    (recomputeAll s).hourStartTime = s.hourStartTime ∧
    (recomputeAll s).recentSequence = s.recentSequence ∧
    (recomputeAll s).mainCurrentCar = s.mainCurrentCar ∧
    (recomputeAll s).mainFeedingFrom = s.mainFeedingFrom ∧
    (recomputeAll s).ovenO1 = s.ovenO1 ∧
    (recomputeAll s).ovenO2 = s.ovenO2 ∧
    (recomputeAll s).activeAlerts = s.activeAlerts :=
  ⟨rfl, rfl, rfl, rfl, rfl, rfl, rfl, rfl, rfl, rfl, rfl, rfl⟩

theorem recomputeAll_laneCars (s : SimState) :
    laneCars (recomputeAll s).lines = laneCars s.lines :=
  laneCars_congr (fun id _ => by
    show (recomputeLine (s.lines id)).cars.length = (s.lines id).cars.length
    rw [(recomputeLine_fields (s.lines id)).1])

/-- Combined facts about `processIncomingCars`: scalar frame, car
conservation, and per-lane preservation of the breakdown-relevant
fields. -/
theorem processIncomingCars_pres (c1 c2 : Bool) (s : SimState) :
    (processIncomingCars c1 c2 s).carBuffer.length +
        laneCars (processIncomingCars c1 c2 s).lines =
      s.carBuffer.length + laneCars s.lines ∧
    (processIncomingCars c1 c2 s).isRunning = s.isRunning ∧
    (processIncomingCars c1 c2 s).isPaused = s.isPaused ∧
    (processIncomingCars c1 c2 s).totalCarsProcessed = s.totalCarsProcessed ∧
    (processIncomingCars c1 c2 s).processedThisHour = s.processedThisHour ∧
    (processIncomingCars c1 c2 s).hourStartTime = s.hourStartTime ∧
    (processIncomingCars c1 c2 s).recentSequence = s.recentSequence ∧
    (processIncomingCars c1 c2 s).mainCurrentCar = s.mainCurrentCar ∧
    (processIncomingCars c1 c2 s).mainFeedingFrom = s.mainFeedingFrom ∧
    (processIncomingCars c1 c2 s).ovenO1 = s.ovenO1 ∧
    (processIncomingCars c1 c2 s).ovenO2 = s.ovenO2 ∧
    (∀ id, ((processIncomingCars c1 c2 s).lines id).lastBreakdown =
      (s.lines id).lastBreakdown) ∧
    (∀ id, ((processIncomingCars c1 c2 s).lines id).capacity = (s.lines id).capacity) ∧
    (∀ id, ((processIncomingCars c1 c2 s).lines id).oven = (s.lines id).oven) ∧
    (∀ id, ((processIncomingCars c1 c2 s).lines id).status = .unavailable →
      (s.lines id).status = .unavailable) := by
  rcases processIncomingCars_cases c1 c2 s with h | h | h <;> rw [h]
  · exact ⟨rfl, rfl, rfl, rfl, rfl, rfl, rfl, rfl, rfl, rfl, rfl,
      fun _ => rfl, fun _ => rfl, fun _ => rfl, fun _ h => h⟩
  · have hA := allocOne_frame c1 s
    have hAc := allocOne_count c1 s
    have hAl := fun id => allocOne_lines_pres c1 s id
    refine ⟨?_, ?_, ?_, ?_, ?_, ?_, ?_, ?_, ?_, ?_, ?_, ?_, ?_, ?_, ?_⟩
    · rw [show (recomputeAll (allocOne c1 s)).carBuffer = (allocOne c1 s).carBuffer from rfl,
        recomputeAll_laneCars]
      exact hAc
    · exact hA.1
    · exact hA.2.1
    · exact hA.2.2.1
    · exact hA.2.2.2.1
    · exact hA.2.2.2.2.1
    · exact hA.2.2.2.2.2.1
    · exact hA.2.2.2.2.2.2.1
    · exact hA.2.2.2.2.2.2.2.1
    · exact hA.2.2.2.2.2.2.2.2.1
    · exact hA.2.2.2.2.2.2.2.2.2
    · intro id
      show (recomputeLine ((allocOne c1 s).lines id)).lastBreakdown = _
      rw [(recomputeLine_fields _).2.2.2]
      exact (hAl id).2.1
    · intro id
      show (recomputeLine ((allocOne c1 s).lines id)).capacity = _
      rw [(recomputeLine_fields _).2.1]
      exact (hAl id).2.2.1
    · intro id
      show (recomputeLine ((allocOne c1 s).lines id)).oven = _
      rw [(recomputeLine_fields _).2.2.1]
      exact (hAl id).2.2.2
    · intro id h
      have := recomputeLine_unavailable h
      rw [(hAl id).1] at this
      exact this
  · have hA1 := allocOne_frame c1 s
    have hA2 := allocOne_frame c2 (allocOne c1 s)
    have hAc1 := allocOne_count c1 s
    have hAc2 := allocOne_count c2 (allocOne c1 s)
    have hAl1 := fun id => allocOne_lines_pres c1 s id
    have hAl2 := fun id => allocOne_lines_pres c2 (allocOne c1 s) id
    refine ⟨?_, ?_, ?_, ?_, ?_, ?_, ?_, ?_, ?_, ?_, ?_, ?_, ?_, ?_, ?_⟩
    · rw [show (recomputeAll (allocOne c2 (allocOne c1 s))).carBuffer =
          (allocOne c2 (allocOne c1 s)).carBuffer from rfl,
        recomputeAll_laneCars]
      omega
    · exact hA2.1.trans hA1.1
    · exact hA2.2.1.trans hA1.2.1
    · exact hA2.2.2.1.trans hA1.2.2.1
    · exact hA2.2.2.2.1.trans hA1.2.2.2.1
    · exact hA2.2.2.2.2.1.trans hA1.2.2.2.2.1
    · exact hA2.2.2.2.2.2.1.trans hA1.2.2.2.2.2.1
    · exact hA2.2.2.2.2.2.2.1.trans hA1.2.2.2.2.2.2.1
    · exact hA2.2.2.2.2.2.2.2.1.trans hA1.2.2.2.2.2.2.2.1
    · exact hA2.2.2.2.2.2.2.2.2.1.trans hA1.2.2.2.2.2.2.2.2.1
    · exact hA2.2.2.2.2.2.2.2.2.2.trans hA1.2.2.2.2.2.2.2.2.2
    · intro id
      show (recomputeLine ((allocOne c2 (allocOne c1 s)).lines id)).lastBreakdown = _
      rw [(recomputeLine_fields _).2.2.2, (hAl2 id).2.1]
      exact (hAl1 id).2.1
    · intro id
      show (recomputeLine ((allocOne c2 (allocOne c1 s)).lines id)).capacity = _
      rw [(recomputeLine_fields _).2.1, (hAl2 id).2.2.1]
      exact (hAl1 id).2.2.1
    · intro id
      show (recomputeLine ((allocOne c2 (allocOne c1 s)).lines id)).oven = _
      rw [(recomputeLine_fields _).2.2.1, (hAl2 id).2.2.2]
      exact (hAl1 id).2.2.2
    · intro id h
      have := recomputeLine_unavailable h
      rw [(hAl2 id).1, (hAl1 id).1] at this
      exact this

theorem simulateBreakdown_pres (now pick : Nat) (s : SimState) :
    (simulateBreakdown now pick s).carBuffer = s.carBuffer ∧
    (simulateBreakdown now pick s).isRunning = s.isRunning ∧
    (simulateBreakdown now pick s).isPaused = s.isPaused ∧
    (simulateBreakdown now pick s).totalCarsProcessed = s.totalCarsProcessed ∧
    (simulateBreakdown now pick s).processedThisHour = s.processedThisHour ∧
    (simulateBreakdown now pick s).hourStartTime = s.hourStartTime ∧
    (simulateBreakdown now pick s).recentSequence = s.recentSequence ∧
    (simulateBreakdown now pick s).mainCurrentCar = s.mainCurrentCar ∧
    (simulateBreakdown now pick s).mainFeedingFrom = s.mainFeedingFrom ∧
    (∀ id, ((simulateBreakdown now pick s).lines id).cars = (s.lines id).cars) ∧
    (∀ id, ((simulateBreakdown now pick s).lines id).capacity = (s.lines id).capacity) ∧
    (∀ id, ((simulateBreakdown now pick s).lines id).oven = (s.lines id).oven) := by
  rcases simulateBreakdown_cases now pick s with h | ⟨rid, _, _, _, h⟩ <;> rw [h]
  · exact ⟨rfl, rfl, rfl, rfl, rfl, rfl, rfl, rfl, rfl,
      fun _ => rfl, fun _ => rfl, fun _ => rfl⟩
  · refine ⟨rfl, rfl, rfl, rfl, rfl, rfl, rfl, rfl, rfl, ?_, ?_, ?_⟩ <;>
      · intro id
        unfold updateLine
        dsimp only
        by_cases hj : id = rid <;> simp [hj]

theorem simulateBreakdown_count (now pick : Nat) (s : SimState) :
    carCount (simulateBreakdown now pick s) = carCount s := by
  have hp := simulateBreakdown_pres now pick s
  have hcc : ∀ id ∈ lineIds, ((simulateBreakdown now pick s).lines id).cars.length =
      (s.lines id).cars.length := fun id _ => by rw [hp.2.2.2.2.2.2.2.2.2.1 id]
  unfold carCount
  rw [hp.1, hp.2.2.2.1, hp.2.2.2.2.2.2.2.1, laneCars_congr hcc]

theorem recoverLine_pres (id : String) (s : SimState) :
    (recoverLine id s).carBuffer = s.carBuffer ∧
    (recoverLine id s).isRunning = s.isRunning ∧
    (recoverLine id s).isPaused = s.isPaused ∧
    (recoverLine id s).totalCarsProcessed = s.totalCarsProcessed ∧
    (recoverLine id s).mainCurrentCar = s.mainCurrentCar ∧
    (∀ j, ((recoverLine id s).lines j).cars = (s.lines j).cars) ∧
    (∀ j, ((recoverLine id s).lines j).capacity = (s.lines j).capacity) ∧
    (∀ j, ((recoverLine id s).lines j).lastBreakdown = (s.lines j).lastBreakdown) ∧
    (∀ j, ((recoverLine id s).lines j).status = .unavailable →
      (s.lines j).status = .unavailable) := by
  unfold recoverLine
  split
  · refine ⟨rfl, rfl, rfl, rfl, rfl, ?_, ?_, ?_, ?_⟩ <;>
      · intro j
        unfold updateLine
        dsimp only
        by_cases hj : j = id <;> simp [hj]
  · exact ⟨rfl, rfl, rfl, rfl, rfl, fun _ => rfl, fun _ => rfl, fun _ => rfl,
      fun _ h => h⟩

theorem recoverLine_count (id : String) (s : SimState) :
    carCount (recoverLine id s) = carCount s := by
  have hp := recoverLine_pres id s
  have hcc : ∀ j ∈ lineIds, ((recoverLine id s).lines j).cars.length =
      (s.lines j).cars.length := fun j _ => by rw [hp.2.2.2.2.2.1 j]
  unfold carCount
  rw [hp.1, hp.2.2.2.1, hp.2.2.2.2.1, laneCars_congr hcc]

theorem processMainLine_count (s : SimState) :
    carCount (processMainLine s) = carCount s := by
  rcases processMainLine_cases s with ⟨hmc, h⟩ |
    ⟨nl, car, rest, st', hmc, hsel, hmem, hcars, hst, h⟩ | ⟨car, hmc, h⟩ <;> rw [h]
  · have hnl : nl ∈ lineIds := candidateLines_subset s nl hmem
    have hupd := @laneCars_update s.lines nl hnl
      (fun l => { l with cars := rest, status := st' })
    unfold carCount
    dsimp only
    rw [hmc]
    have hlen : (s.lines nl).cars.length = rest.length + 1 := by
      rw [hcars]
      rfl
    dsimp only at hupd
    have hone : (if (some car : Option Car).isSome = true then 1 else 0) = 1 := rfl
    have hzero : (if (none : Option Car).isSome = true then 1 else 0) = 0 := rfl
    rw [hone, hzero]
    omega
  · unfold carCount
    dsimp only
    rw [hmc]
    have hone : (if (some car : Option Car).isSome = true then 1 else 0) = 1 := rfl
    have hzero : (if (none : Option Car).isSome = true then 1 else 0) = 0 := rfl
    rw [hone, hzero]
    omega

theorem processMainLine_pres (s : SimState) :
    (processMainLine s).carBuffer = s.carBuffer ∧
    (processMainLine s).isRunning = s.isRunning ∧
    (processMainLine s).isPaused = s.isPaused ∧
    (processMainLine s).hourStartTime = s.hourStartTime ∧
    (∀ id, ((processMainLine s).lines id).lastBreakdown = (s.lines id).lastBreakdown) ∧
    (∀ id, ((processMainLine s).lines id).capacity = (s.lines id).capacity) ∧
    (∀ id, ((processMainLine s).lines id).oven = (s.lines id).oven) ∧
    (∀ id, ((processMainLine s).lines id).status = .unavailable →
      (s.lines id).status = .unavailable) := by
  rcases processMainLine_cases s with ⟨hmc, h⟩ |
    ⟨nl, car, rest, st', hmc, hsel, hmem, hcars, hst, h⟩ | ⟨car, hmc, h⟩ <;> rw [h]
  · exact ⟨rfl, rfl, rfl, rfl, fun _ => rfl, fun _ => rfl, fun _ => rfl, fun _ h => h⟩
  · refine ⟨rfl, rfl, rfl, rfl, ?_, ?_, ?_, ?_⟩
    · intro id
      unfold updateLine
      dsimp only
      by_cases hj : id = nl <;> simp [hj]
    · intro id
      unfold updateLine
      dsimp only
      by_cases hj : id = nl <;> simp [hj]
    · intro id
      unfold updateLine
      dsimp only
      by_cases hj : id = nl <;> simp [hj]
    · intro id hun
      unfold updateLine at hun
      dsimp only at hun
      by_cases hj : id = nl
      · rw [if_pos hj] at hun
        dsimp only at hun
        subst hj
        rcases hst with rfl | rfl
        · exact hun
        · cases hun
      · rw [if_neg hj] at hun
        exact hun
  · exact ⟨rfl, rfl, rfl, rfl, fun _ => rfl, fun _ => rfl, fun _ => rfl, fun _ h => h⟩

theorem processMainLine_capacity (s : SimState)
    (hinv : ∀ id ∈ lineIds, (s.lines id).cars.length ≤ (s.lines id).capacity) :
    ∀ id ∈ lineIds, ((processMainLine s).lines id).cars.length ≤
      ((processMainLine s).lines id).capacity := by
  rcases processMainLine_cases s with ⟨hmc, h⟩ |
    ⟨nl, car, rest, st', hmc, hsel, hmem, hcars, hst, h⟩ | ⟨car, hmc, h⟩ <;> rw [h]
  · exact hinv
  · intro id hid
    unfold updateLine
    dsimp only
    by_cases hj : id = nl
    · subst hj
      rw [if_pos rfl]
      dsimp only
      have h1 := hinv id hid
      have hlen : (s.lines id).cars.length = rest.length + 1 := by
        rw [hcars]
        rfl
      omega
    · rw [if_neg hj]
      exact hinv id hid
  · exact hinv

theorem processIncomingCars_capacity (c1 c2 : Bool) (s : SimState)
    (hinv : ∀ id ∈ lineIds, (s.lines id).cars.length ≤ (s.lines id).capacity) :
    ∀ id ∈ lineIds, ((processIncomingCars c1 c2 s).lines id).cars.length ≤
      ((processIncomingCars c1 c2 s).lines id).capacity := by
  rcases processIncomingCars_cases c1 c2 s with h | h | h <;> rw [h]
  · exact hinv
  · intro id hid
    show (recomputeLine ((allocOne c1 s).lines id)).cars.length ≤
      (recomputeLine ((allocOne c1 s).lines id)).capacity
    rw [(recomputeLine_fields _).1, (recomputeLine_fields _).2.1]
    exact allocOne_capacity c1 s hinv id hid
  · intro id hid
    show (recomputeLine ((allocOne c2 (allocOne c1 s)).lines id)).cars.length ≤
      (recomputeLine ((allocOne c2 (allocOne c1 s)).lines id)).capacity
    rw [(recomputeLine_fields _).1, (recomputeLine_fields _).2.1]
    exact allocOne_capacity c2 (allocOne c1 s)
      (allocOne_capacity c1 s hinv) id hid

theorem processIncomingCars_count (c1 c2 : Bool) (s : SimState) :
    carCount (processIncomingCars c1 c2 s) = carCount s := by
  have hp := processIncomingCars_pres c1 c2 s
  have h1 := hp.1
  unfold carCount
  rw [hp.2.2.2.1, hp.2.2.2.2.2.2.2.1]
  omega

theorem carCount_set_alerts (s : SimState) (n : Nat) :
    carCount { s with activeAlerts := n } = carCount s := rfl

theorem carCount_hour_reset (now : Nat) (s : SimState) :
    carCount (if 3600000 ≤ now - s.hourStartTime then
      { s with processedThisHour := 0, hourStartTime := now } else s) = carCount s := by
  split <;> rfl

theorem tick_count (now : Nat) (doB : Bool) (pick : Nat) (c1 c2 : Bool)
    (s : SimState) :
    carCount (tick now doB pick c1 c2 s) = carCount s := by
  unfold tick
  split
  · rfl
  · rw [carCount_set_alerts, carCount_hour_reset, processMainLine_count,
      processIncomingCars_count]
    split
    · exact simulateBreakdown_count now pick s
    · rfl

theorem swapList_length (l : List α) (i j : Nat) :
    (swapList l i j).length = l.length := by
  unfold swapList
  split <;> simp

theorem shuffleGo_length (js : Nat → Nat) (n : Nat) (l : List α) :
    (shuffleGo js n l).length = l.length := by
  induction n generalizing l with
  | zero => rfl
  | succ i ih =>
    rw [shuffleGo, ih, swapList_length]

theorem shuffleArray_length (js : Nat → Nat) (l : List α) :
    (shuffleArray js l).length = l.length :=
  shuffleGo_length js (l.length - 1) l

set_option maxHeartbeats 2000000 in
theorem initialCarBuffer_length : initialCarBuffer.length = 120 := by decide

set_option maxHeartbeats 2000000 in
theorem laneCars_resetLines : laneCars resetLines = 0 := by decide

theorem reset_carCount (now : Nat) (js : Nat → Nat) :
    carCount (reset now js) = 120 := by
  unfold carCount reset
  dsimp only
  rw [shuffleArray_length, initialCarBuffer_length, laneCars_resetLines]
  simp

theorem reset_capacity (now : Nat) (js : Nat → Nat) :
    ∀ id ∈ lineIds, ((reset now js).lines id).cars.length ≤
      ((reset now js).lines id).capacity := by
  intro id _
  show (resetLines id).cars.length ≤ (resetLines id).capacity
  unfold resetLines
  split <;> simp

theorem tick_capacity (now : Nat) (doB : Bool) (pick : Nat) (c1 c2 : Bool)
    (s : SimState)
    (hinv : ∀ id ∈ lineIds, (s.lines id).cars.length ≤ (s.lines id).capacity) :
    ∀ id ∈ lineIds, ((tick now doB pick c1 c2 s).lines id).cars.length ≤
      ((tick now doB pick c1 c2 s).lines id).capacity := by
  unfold tick
  split
  · exact hinv
  · have hb : ∀ id ∈ lineIds,
        ((simulateBreakdown now pick s).lines id).cars.length ≤
        ((simulateBreakdown now pick s).lines id).capacity := by
      intro id hid
      have hp := simulateBreakdown_pres now pick s
      rw [hp.2.2.2.2.2.2.2.2.2.1 id, hp.2.2.2.2.2.2.2.2.2.2.1 id]
      exact hinv id hid
    have h3t := processMainLine_capacity _ (processIncomingCars_capacity c1 c2 _ hb)
    have h3f := processMainLine_capacity _ (processIncomingCars_capacity c1 c2 _ hinv)
    intro id hid
    dsimp only
    split <;> split <;> first
      | exact h3t id hid
      | exact h3f id hid

theorem reachable_carCount {s : SimState} (h : Reachable s) : carCount s = 120 := by
  induction h with
  | reset now js => exact reset_carCount now js
  | step s op hs ih =>
    cases op with
    | tickOp now doB pick c1 c2 => exact (tick_count now doB pick c1 c2 s).trans ih
    | startOp => exact ih
    | pauseOp => exact ih
    | recoverOp id => exact (recoverLine_count id s).trans ih

theorem reachable_capacity {s : SimState} (h : Reachable s) :
    ∀ id ∈ lineIds, (s.lines id).cars.length ≤ (s.lines id).capacity := by
  induction h with
  | reset now js => exact reset_capacity now js
  | step s op hs ih =>
    cases op with
    | tickOp now doB pick c1 c2 => exact tick_capacity now doB pick c1 c2 s ih
    | startOp => exact ih
    | pauseOp => exact ih
    | recoverOp id =>
      intro j hj
      have hp := recoverLine_pres id s
      show ((recoverLine id s).lines j).cars.length ≤ ((recoverLine id s).lines j).capacity
      rw [hp.2.2.2.2.2.1 j, hp.2.2.2.2.2.2.1 j]
      exact ih j hj

theorem applyOp_count (op : SimOp) (s : SimState) :
    carCount (applyOp op s) = carCount s := by
  cases op with
  | tickOp now doB pick c1 c2 => exact tick_count now doB pick c1 c2 s
  | startOp => rfl
  | pauseOp => rfl
  | recoverOp id => exact recoverLine_count id s

theorem simulateBreakdown_not_active_untouched (now pick : Nat) (s : SimState)
    (id : String) (h : (s.lines id).status ≠ .active) :
    (simulateBreakdown now pick s).lines id = s.lines id := by
  rcases simulateBreakdown_cases now pick s with heq | ⟨rid, _, hact, _, heq⟩ <;> rw [heq]
  unfold updateLine
  dsimp only
  rw [if_neg]
  intro hir
  subst hir
  exact h hact

/-! ### Concrete states used by the witnesses and counterexamples -/

/-- Lane table of the generic witness state: `L1` mid-fill, `L2` at
capacity (status `full`), the rest as freshly reset. -/
def wLines : String → Line := fun id =>
  if id = "L1" then
    { status := .active, cars := ["C1", "C3"], capacity := 14, oven := "O1", lastBreakdown := 0 }
  else if id = "L2" then
    { status := .full, cars := List.replicate 14 "C2", capacity := 14, oven := "O1", lastBreakdown := 0 }
  else resetLines id

/-- A running mid-simulation state used to instantiate theorems with
hypotheses. -/
def wState : SimState :=
  { isRunning := true
    isPaused := false
    totalCarsProcessed := 5
    processedThisHour := 5
    hourStartTime := 0
    recentSequence := ["C1"]
    carBuffer := ["C4"]
    ovenO1 := { status := .active, lastToggle := 0 }
    ovenO2 := { status := .active, lastToggle := 0 }
    lines := wLines
    mainFeedingFrom := none
    mainCurrentCar := some "C2"
    lastFedLine := none
    activeAlerts := 0 }

/-! ### Claim theorems -/

/-- C1: car conservation.  For every reachable state the backlog, the
lane queues, the conveyor slot, and the retired total account for
exactly the 120 cars generated at the last reset, and no operation
(tick, breakdown recovery, start, pause) creates or destroys a car. -/
theorem c1_car_conservation (s : SimState) :
    (Reachable s → carCount s = 120) ∧
    ∀ op, carCount (applyOp op s) = carCount s :=
  ⟨fun h => reachable_carCount h, fun op => applyOp_count op s⟩

/-- Witness for C1 at a concrete reset state. -/
theorem c1_car_conservation_witness : carCount (reset 0 (fun _ => 0)) = 120 :=
  (c1_car_conservation (reset 0 (fun _ => 0))).1 (Reachable.reset 0 (fun _ => 0))

/-- C2: capacity invariant.  In every reachable state every lane's queue
length lies between 0 and its capacity, and `findBestLine` never selects
a lane whose queue is at capacity. -/
theorem c2_capacity_invariant (s : SimState) :
    (Reachable s → ∀ id ∈ lineIds, 0 ≤ (s.lines id).cars.length ∧
      (s.lines id).cars.length ≤ (s.lines id).capacity) ∧
    ∀ color ovenId id, findBestLine s color ovenId = some id →
      (s.lines id).cars.length < (s.lines id).capacity :=
  ⟨fun h id hid => ⟨Nat.zero_le _, reachable_capacity h id hid⟩,
   fun _ _ _ hf => (findBestLine_mem hf).2⟩

/-- Witness for C2 at a concrete reset state. -/
theorem c2_capacity_invariant_witness :
    ∀ id ∈ lineIds, 0 ≤ ((reset 0 (fun _ => 0)).lines id).cars.length ∧
      ((reset 0 (fun _ => 0)).lines id).cars.length ≤
        ((reset 0 (fun _ => 0)).lines id).capacity :=
  (c2_capacity_invariant (reset 0 (fun _ => 0))).1 (Reachable.reset 0 (fun _ => 0))

/-- C5: one-tick conveyor residency.  On an empty slot `processMainLine`
retires nothing and at most pops one car into the slot; on an occupied
slot it retires exactly the occupant (appending to `recentSequence` with
the 15-bound eviction, bumping both counters, clearing the slot) without
selecting a new car.  A car is never loaded and retired in the same
tick. -/
theorem c5_one_tick_residency (s : SimState) :
    (s.mainCurrentCar = none →
      (processMainLine s).totalCarsProcessed = s.totalCarsProcessed ∧
      (processMainLine s).processedThisHour = s.processedThisHour ∧
      (processMainLine s).recentSequence = s.recentSequence ∧
      (processMainLine s = s ∨
        ∃ nl car, selectNextLine s = some nl ∧
          (s.lines nl).cars.head? = some car ∧
          (processMainLine s).mainCurrentCar = some car ∧
          (processMainLine s).mainFeedingFrom = some nl ∧
          ((processMainLine s).lines nl).cars = (s.lines nl).cars.tail ∧
          ∀ j, j ≠ nl → (processMainLine s).lines j = s.lines j)) ∧
    ∀ car, s.mainCurrentCar = some car →
      (processMainLine s).recentSequence =
        (if (s.recentSequence ++ [car]).length > 15 then (s.recentSequence ++ [car]).tail
         else s.recentSequence ++ [car]) ∧
      (processMainLine s).totalCarsProcessed = s.totalCarsProcessed + 1 ∧
      (processMainLine s).processedThisHour = s.processedThisHour + 1 ∧
      (processMainLine s).mainCurrentCar = none ∧
      (processMainLine s).mainFeedingFrom = none ∧
      (processMainLine s).lines = s.lines ∧
      (processMainLine s).carBuffer = s.carBuffer := by
  rcases processMainLine_cases s with ⟨hmc, h⟩ |
    ⟨nl, car, rest, st', hmc, hsel, hmem, hcars, hst, h⟩ | ⟨car, hmc, h⟩
  · constructor
    · intro _
      rw [h]
      exact ⟨rfl, rfl, rfl, Or.inl rfl⟩
    · intro car hcar
      rw [hmc] at hcar
      cases hcar
  · constructor
    · intro _
      rw [h]
      refine ⟨rfl, rfl, rfl, Or.inr ⟨nl, car, hsel, ?_, rfl, rfl, ?_, ?_⟩⟩
      · rw [hcars]
        rfl
      · unfold updateLine
        dsimp only
        rw [if_pos rfl, hcars]
        rfl
      · intro j hj
        unfold updateLine
        dsimp only
        rw [if_neg hj]
    · intro car' hcar'
      rw [hmc] at hcar'
      cases hcar'
  · constructor
    · intro h0
      rw [hmc] at h0
      cases h0
    · intro car' hcar'
      rw [hmc] at hcar'
      cases hcar'
      rw [h]
      exact ⟨rfl, rfl, rfl, rfl, rfl, rfl, rfl⟩

/-- Witness for C5: retiring the occupant of the slot in `wState`. -/
theorem c5_one_tick_residency_witness :
    (processMainLine wState).recentSequence =
      (if (wState.recentSequence ++ ["C2"]).length > 15
       then (wState.recentSequence ++ ["C2"]).tail
       else wState.recentSequence ++ ["C2"]) ∧
    (processMainLine wState).totalCarsProcessed = wState.totalCarsProcessed + 1 ∧
    (processMainLine wState).processedThisHour = wState.processedThisHour + 1 ∧
    (processMainLine wState).mainCurrentCar = none ∧
    (processMainLine wState).mainFeedingFrom = none ∧
    (processMainLine wState).lines = wState.lines ∧
    (processMainLine wState).carBuffer = wState.carBuffer :=
  (c5_one_tick_residency wState).2 "C2" rfl

/-- C7: at the end of every executed tick `activeAlerts` equals the
number of lanes whose status is `full` or `unavailable`, whatever the
allocator did to the counter during the tick. -/
theorem c7_alert_recompute (now : Nat) (doB : Bool) (pick : Nat) (c1 c2 : Bool)
    (s : SimState) (h1 : s.isRunning = true) (h2 : s.isPaused = false) :
    (tick now doB pick c1 c2 s).activeAlerts =
      countAlerts (tick now doB pick c1 c2 s).lines := by
  have hcond : ¬ (s.isRunning = false ∨ s.isPaused = true) := by
    simp [h1, h2]
  unfold tick
  simp only [if_neg hcond]

/-- Witness for C7 at a concrete running state. -/
theorem c7_alert_recompute_witness :
    (tick 500 false 0 true true wState).activeAlerts =
      countAlerts (tick 500 false 0 true true wState).lines :=
  c7_alert_recompute 500 false 0 true true wState rfl rfl

/-- C10: a lane whose status is `full` is untouched by any breakdown
roll (the injector counts and picks only `active` lanes), and no
operation moves it directly to `unavailable`. -/
theorem c10_full_never_unavailable (s : SimState) (id : String)
    (h : (s.lines id).status = .full) :
    (∀ now pick, (simulateBreakdown now pick s).lines id = s.lines id) ∧
    ∀ op, ((applyOp op s).lines id).status ≠ .unavailable := by
  constructor
  · intro now pick
    exact simulateBreakdown_not_active_untouched now pick s id (by rw [h]; simp)
  · intro op
    cases op with
    | tickOp now doB pick c1 c2 =>
      show ((tick now doB pick c1 c2 s).lines id).status ≠ .unavailable
      unfold tick
      split
      · rw [h]
        simp
      · dsimp only
        split <;> split <;> intro hun
        all_goals
          first
          | · have h2 := (processMainLine_pres _).2.2.2.2.2.2.2 id hun
              have h3 := (processIncomingCars_pres c1 c2 _).2.2.2.2.2.2.2.2.2.2.2.2.2.2 id h2
              rw [simulateBreakdown_not_active_untouched now pick s id (by rw [h]; simp)] at h3
              rw [h] at h3
              cases h3
          | · have h2 := (processMainLine_pres _).2.2.2.2.2.2.2 id hun
              have h3 := (processIncomingCars_pres c1 c2 _).2.2.2.2.2.2.2.2.2.2.2.2.2.2 id h2
              rw [h] at h3
              cases h3
    | startOp =>
      intro hc
      have hc' : (s.lines id).status = .unavailable := hc
      rw [h] at hc'
      cases hc'
    | pauseOp =>
      intro hc
      have hc' : (s.lines id).status = .unavailable := hc
      rw [h] at hc'
      cases hc'
    | recoverOp rid =>
      intro hc
      have := (recoverLine_pres rid s).2.2.2.2.2.2.2.2 id hc
      rw [h] at this
      cases this

/-- Witness for C10 at `wState`, whose lane `L2` is `full`. -/
theorem c10_full_never_unavailable_witness :
    (simulateBreakdown 99999 0 wState).lines "L2" = wState.lines "L2" ∧
    ((applyOp SimOp.startOp wState).lines "L2").status ≠ .unavailable :=
  ⟨(c10_full_never_unavailable wState "L2" rfl).1 99999 0,
   (c10_full_never_unavailable wState "L2" rfl).2 SimOp.startOp⟩

/-- Spec-side predicate: a lane that continues the car's color run (its
most recently pushed car is this color) and still has spare capacity. -/
def continuationLane (s : SimState) (color : Car) (id : String) : Prop :=
  (s.lines id).cars.length > 0 ∧
  (s.lines id).cars.getLast? = some color ∧
  (s.lines id).cars.length < (s.lines id).capacity

instance (s : SimState) (color : Car) (id : String) :
    Decidable (continuationLane s color id) := by
  unfold continuationLane
  infer_instance

/-- Spec-side list: the eligible lanes of the oven that still have spare
capacity, in lane iteration order. -/
def spareLanes (s : SimState) (ovenId : String) : List String :=
  (getAvailableLines s ovenId).filter (fun id =>
    decide ((s.lines id).cars.length < (s.lines id).capacity))

/-- C3: `findBestLine` postcondition.  If some eligible lane continues
the color with spare capacity, such a lane is returned (continuation has
absolute priority); otherwise, if some eligible lane has spare capacity,
the one with the fewest queued cars is returned, ties broken by the
first match in iteration order; otherwise `null`. -/
theorem c3_findBestLine_correct (s : SimState) (color : Car) (ovenId : String) :
    ((∃ id ∈ getAvailableLines s ovenId, continuationLane s color id) →
      ∃ id, findBestLine s color ovenId = some id ∧
        id ∈ getAvailableLines s ovenId ∧ continuationLane s color id) ∧
    ((∀ id ∈ getAvailableLines s ovenId, ¬ continuationLane s color id) →
      spareLanes s ovenId ≠ [] →
      ∃ id t₁ t₂, findBestLine s color ovenId = some id ∧
        spareLanes s ovenId = t₁ ++ id :: t₂ ∧
        (∀ j ∈ t₁, (s.lines id).cars.length < (s.lines j).cars.length) ∧
        ∀ j ∈ spareLanes s ovenId,
          (s.lines id).cars.length ≤ (s.lines j).cars.length) ∧
    (spareLanes s ovenId = [] → findBestLine s color ovenId = none) := by
  refine ⟨?_, ?_, ?_⟩
  · rintro ⟨id0, hid0, hcont⟩
    cases hfind : (getAvailableLines s ovenId).find? (fun id =>
        decide ((s.lines id).cars.length > 0 ∧
          (s.lines id).cars.getLast? = some color ∧
          (s.lines id).cars.length < (s.lines id).capacity)) with
    | none =>
      exfalso
      have := List.find?_eq_none.mp hfind id0 hid0
      simp only [decide_eq_true_eq] at this
      exact this hcont
    | some fid =>
      refine ⟨fid, ?_, List.mem_of_find?_eq_some hfind, ?_⟩
      · unfold findBestLine
        dsimp only
        rw [hfind]
      · have := List.find?_some hfind
        simp only [decide_eq_true_eq] at this
        exact this
  · intro hnone hne
    have hfind : (getAvailableLines s ovenId).find? (fun id =>
        decide ((s.lines id).cars.length > 0 ∧
          (s.lines id).cars.getLast? = some color ∧
          (s.lines id).cars.length < (s.lines id).capacity)) = none := by
      rw [List.find?_eq_none]
      intro id hid
      simp only [decide_eq_true_eq]
      exact hnone id hid
    have hres : findBestLine s color ovenId =
        (sortAsc (fun id => (s.lines id).cars.length) (spareLanes s ovenId)).head? := by
      unfold findBestLine
      dsimp only
      rw [hfind]
      rw [show (List.filter (fun id => decide ((s.lines id).cars.length <
        (s.lines id).capacity)) (getAvailableLines s ovenId)) = spareLanes s ovenId from rfl]
      rw [if_neg hne]
    rw [head?_sortAsc] at hres
    cases hfm : firstMinBy (fun id => (s.lines id).cars.length) (spareLanes s ovenId) with
    | none => exact absurd ((firstMinBy_eq_none_iff _ _).mp hfm) hne
    | some m =>
      obtain ⟨t₁, t₂, hdecomp, hstrict, hmin⟩ := firstMinBy_spec hfm
      rw [hfm] at hres
      exact ⟨m, t₁, t₂, hres, hdecomp, hstrict, hmin⟩
  · intro hsp
    have hall : ∀ id ∈ getAvailableLines s ovenId,
        ¬ ((s.lines id).cars.length < (s.lines id).capacity) := by
      intro id hid hlt
      have : id ∈ spareLanes s ovenId := by
        unfold spareLanes
        rw [List.mem_filter]
        exact ⟨hid, by simpa using hlt⟩
      rw [hsp] at this
      cases this
    have hfind : (getAvailableLines s ovenId).find? (fun id =>
        decide ((s.lines id).cars.length > 0 ∧
          (s.lines id).cars.getLast? = some color ∧
          (s.lines id).cars.length < (s.lines id).capacity)) = none := by
      rw [List.find?_eq_none]
      intro id hid
      simp only [decide_eq_true_eq]
      intro hc
      exact hall id hid hc.2.2
    unfold findBestLine
    dsimp only
    rw [hfind]
    rw [show (List.filter (fun id => decide ((s.lines id).cars.length <
      (s.lines id).capacity)) (getAvailableLines s ovenId)) = spareLanes s ovenId from rfl]
    rw [if_pos hsp]

/-- Witness for C3: in `wState`, lane `L1` ends in `C3` with spare
capacity, so allocating a `C3` car on oven `O1` must return a
continuation lane. -/
theorem c3_findBestLine_correct_witness :
    ∃ id, findBestLine wState "C3" "O1" = some id ∧
      id ∈ getAvailableLines wState "O1" ∧ continuationLane wState "C3" id :=
  (c3_findBestLine_correct wState "C3" "O1").1 ⟨"L1", by decide, by decide⟩

/-- C4: `selectNextLine` postcondition.  With no candidate lane the
result is `null`.  Otherwise the candidates are grouped by
front-of-queue color (each group's lanes are exactly the candidates
with that front color, in lane-id order), each group is weighed by the
count of its color anywhere in its lanes' queues (`groupWeight`), and
the first lane of the group with the largest run weight is returned,
ties between groups resolved in favor of the group encountered first. -/
theorem c4_selectNextLine_correct (s : SimState) :
    (candidateLines s = [] → selectNextLine s = none) ∧
    (candidateLines s ≠ [] →
      ∃ c ids t₁ t₂,
        colorGroups s = t₁ ++ (c, ids) :: t₂ ∧
        (∀ g ∈ t₁, groupWeight s g < groupWeight s (c, ids)) ∧
        (∀ g ∈ colorGroups s, groupWeight s g ≤ groupWeight s (c, ids)) ∧
        (∀ g ∈ colorGroups s, g.2 =
          (candidateLines s).filter (fun id => decide (frontColor s id = g.1))) ∧
        ids = (candidateLines s).filter (fun id => decide (frontColor s id = c)) ∧
        ids ≠ [] ∧
        selectNextLine s = ids.head?) := by
  constructor
  · intro h
    unfold selectNextLine
    dsimp only
    rw [if_pos h]
  · intro hne
    have hwf := colorGroups_wf s
    have hgne : colorGroups s ≠ [] := by
      cases hc : candidateLines s with
      | nil => exact absurd hc hne
      | cons a t =>
        obtain ⟨g, hg, _⟩ := hwf.covers a (by rw [hc]; exact List.mem_cons_self a t)
        intro h0
        rw [h0] at hg
        cases hg
    cases hf : firstMaxBy (groupWeight s) (colorGroups s) with
    | none => exact absurd ((firstMaxBy_eq_none_iff _ _).mp hf) hgne
    | some g0 =>
      obtain ⟨c, ids⟩ := g0
      obtain ⟨t₁, t₂, hdecomp, hstrict, hmax⟩ := firstMaxBy_spec hf
      have hsel : selectNextLine s = ids.head? := by
        unfold selectNextLine
        dsimp only
        rw [if_neg hne]
        have hh := head?_sortDesc (groupWeight s) (colorGroups s)
        rw [hf] at hh
        cases hs : sortDesc (groupWeight s) (colorGroups s) with
        | nil =>
          rw [hs] at hh
          cases hh
        | cons g rest =>
          rw [hs] at hh
          cases hh
          rfl
      have hmemg : (c, ids) ∈ colorGroups s := by
        rw [hdecomp]
        exact List.mem_append_right _ (List.mem_cons_self _ _)
      exact ⟨c, ids, t₁, t₂, hdecomp, hstrict, hmax,
        fun g hg => hwf.ids_eq g hg, hwf.ids_eq (c, ids) hmemg,
        hwf.ids_ne (c, ids) hmemg, hsel⟩

/-- Witness for C4 at `wState`: candidates are `L1` (front `C1`, run
weight 1) and `L2` (front `C2`, run weight 14), so the `C2` group wins
and its first lane `L2` is selected. -/
theorem c4_selectNextLine_correct_witness :
    candidateLines wState ≠ [] ∧
    (∃ c ids t₁ t₂,
      colorGroups wState = t₁ ++ (c, ids) :: t₂ ∧
      (∀ g ∈ t₁, groupWeight wState g < groupWeight wState (c, ids)) ∧
      (∀ g ∈ colorGroups wState, groupWeight wState g ≤ groupWeight wState (c, ids)) ∧
      (∀ g ∈ colorGroups wState, g.2 =
        (candidateLines wState).filter (fun id => decide (frontColor wState id = g.1))) ∧
      ids = (candidateLines wState).filter (fun id => decide (frontColor wState id = c)) ∧
      ids ≠ [] ∧
      selectNextLine wState = ids.head?) :=
  ⟨by decide, (c4_selectNextLine_correct wState).2 (by decide)⟩

/-- Whether an operation happens strictly before the wall-clock bound
(only ticks carry a time; the commands and recovery timers are
unconstrained because they never mark a lane unavailable). -/
def opBefore (bound : Nat) : SimOp → Bool
  | .tickOp now _ _ _ _ => decide (now < bound)
  | _ => true

/-- One operation within the cooldown window neither changes the lane's
`lastBreakdown` stamp nor newly marks it `unavailable`. -/
theorem op_cooldown_step (op : SimOp) (s : SimState) (id : String) (T : Nat)
    (hT : (s.lines id).lastBreakdown = T)
    (hop : opBefore (T + 15000) op = true) :
    ((applyOp op s).lines id).lastBreakdown = T ∧
    (((applyOp op s).lines id).status = .unavailable →
      (s.lines id).status = .unavailable) := by
  cases op with
  | startOp => exact ⟨hT, fun h => h⟩
  | pauseOp => exact ⟨hT, fun h => h⟩
  | recoverOp rid =>
    exact ⟨((recoverLine_pres rid s).2.2.2.2.2.2.2.1 id).trans hT,
      (recoverLine_pres rid s).2.2.2.2.2.2.2.2 id⟩
  | tickOp now doB pick c1 c2 =>
    simp only [opBefore, decide_eq_true_eq] at hop
    show ((tick now doB pick c1 c2 s).lines id).lastBreakdown = T ∧
      (((tick now doB pick c1 c2 s).lines id).status = .unavailable →
        (s.lines id).status = .unavailable)
    have hsb : (simulateBreakdown now pick s).lines id = s.lines id := by
      rcases simulateBreakdown_cases now pick s with heq | ⟨rid, _, _, hcool, heq⟩ <;>
        rw [heq]
      unfold updateLine
      dsimp only
      by_cases hir : id = rid
      · subst hir
        rw [hT] at hcool
        omega
      · rw [if_neg hir]
    unfold tick
    split
    · exact ⟨hT, fun h => h⟩
    · have keyT : ((processMainLine (processIncomingCars c1 c2
          (simulateBreakdown now pick s))).lines id).lastBreakdown = T ∧
          (((processMainLine (processIncomingCars c1 c2
            (simulateBreakdown now pick s))).lines id).status = .unavailable →
            (s.lines id).status = .unavailable) := by
        constructor
        · exact ((processMainLine_pres _).2.2.2.2.1 id).trans
            (((processIncomingCars_pres c1 c2 _).2.2.2.2.2.2.2.2.2.2.2.1 id).trans
              (by rw [hsb]; exact hT))
        · intro hun
          have h2 := (processMainLine_pres _).2.2.2.2.2.2.2 id hun
          have h3 := (processIncomingCars_pres c1 c2 _).2.2.2.2.2.2.2.2.2.2.2.2.2.2 id h2
          rw [hsb] at h3
          exact h3
      have keyF : ((processMainLine (processIncomingCars c1 c2 s)).lines
            id).lastBreakdown = T ∧
          (((processMainLine (processIncomingCars c1 c2 s)).lines id).status =
            .unavailable → (s.lines id).status = .unavailable) := by
        constructor
        · exact ((processMainLine_pres _).2.2.2.2.1 id).trans
            (((processIncomingCars_pres c1 c2 _).2.2.2.2.2.2.2.2.2.2.2.1 id).trans hT)
        · intro hun
          have h2 := (processMainLine_pres _).2.2.2.2.2.2.2 id hun
          exact (processIncomingCars_pres c1 c2 _).2.2.2.2.2.2.2.2.2.2.2.2.2.2 id h2
      dsimp only
      split <;> split
      all_goals first
        | exact keyT
        | exact keyF

/-- `run` over an append splits into two runs. -/
theorem run_append (s : SimState) (l : List SimOp) (op : SimOp) :
    run s (l ++ [op]) = applyOp op (run s l) := by
  unfold run
  rw [List.foldl_append]
  rfl

/-- Within the cooldown window, the whole run keeps the breakdown
stamp. -/
theorem run_keeps_stamp (id : String) (T : Nat) :
    ∀ (ops : List SimOp) (s : SimState),
      (s.lines id).lastBreakdown = T →
      (∀ op ∈ ops, opBefore (T + 15000) op = true) →
      ((run s ops).lines id).lastBreakdown = T := by
  intro ops
  induction ops with
  | nil => exact fun s hT _ => hT
  | cons op rest ih =>
    intro s hT hops
    have hstep := op_cooldown_step op s id T hT (hops op (List.mem_cons_self _ _))
    exact ih (applyOp op s) hstep.1
      (fun o ho => hops o (List.mem_cons_of_mem _ ho))

/-- C6: breakdown cooldown.  If a lane's `lastBreakdown` stamp is `T`,
then along any sequence of operations whose ticks all happen strictly
before `T + 15000` ms the stamp never changes, and no step of the run
newly marks that lane `unavailable` — even when the random pick targets
it. -/
theorem c6_breakdown_cooldown (s : SimState) (id : String) (T : Nat)
    (ops : List SimOp)
    (hT : (s.lines id).lastBreakdown = T)
    (hops : ∀ op ∈ ops, opBefore (T + 15000) op = true) :
    (∀ n, ((run s (ops.take n)).lines id).lastBreakdown = T) ∧
    ∀ n op, ops.get? n = some op →
      ¬ (((run s (ops.take n)).lines id).status ≠ .unavailable ∧
         ((run s (ops.take (n + 1))).lines id).status = .unavailable) := by
  have hpre : ∀ n, ((run s (ops.take n)).lines id).lastBreakdown = T := by
    intro n
    exact run_keeps_stamp id T (ops.take n) s hT
      (fun op hop => hops op (List.take_subset n ops hop))
  refine ⟨hpre, ?_⟩
  rintro n op hget ⟨hnot, hun⟩
  have hg2 : ops[n]? = some op := by
    rw [← List.get?_eq_getElem?]
    exact hget
  have htake : ops.take (n + 1) = ops.take n ++ [op] := by
    rw [List.take_succ, hg2]
    rfl
  rw [htake, run_append] at hun
  have hstep := op_cooldown_step op (run s (ops.take n)) id T (hpre n)
    (hops op (List.get?_mem hget))
  exact hnot (hstep.2 hun)

/-- Witness for C6: a lane stamped at `T = 1000` survives a tick at time
2000 (within the 15000 ms cooldown) with stamp intact and is never newly
marked unavailable. -/
theorem c6_breakdown_cooldown_witness :
    (∀ n, ((run wState (([SimOp.tickOp 2000 true 0 true true]).take n)).lines
      "L1").lastBreakdown = 0) ∧
    ∀ n op, ([SimOp.tickOp 2000 true 0 true true]).get? n = some op →
      ¬ (((run wState (([SimOp.tickOp 2000 true 0 true true]).take n)).lines
            "L1").status ≠ .unavailable ∧
         ((run wState (([SimOp.tickOp 2000 true 0 true true]).take (n + 1))).lines
            "L1").status = .unavailable) :=
  c6_breakdown_cooldown wState "L1" 0
    [SimOp.tickOp 2000 true 0 true true] (by decide) (by decide)

/-- A stopped (not running, not paused) state used for the C8
counterexample. -/
def c8State : SimState :=
  { wState with isRunning := false }

/-- C8 counterexample: invoking `pause` while stopped does change the
observable snapshot — `is_paused` reads `true` afterwards, so the
snapshot is not unchanged and `is_paused` does not still read `false`. -/
theorem c8_pause_counterexample :
    c8State.isRunning = false ∧
    (getStatus 0 (pause c8State)).is_paused = true ∧
    getStatus 0 (pause c8State) ≠ getStatus 0 c8State := by
  refine ⟨rfl, rfl, ?_⟩
  intro heq
  have h2 : (getStatus 0 (pause c8State)).is_paused = (getStatus 0 c8State).is_paused := by
    rw [heq]
  have h3 : (true : Bool) = false := h2
  cases h3

/-- C8 amended: `pause` while stopped never fails and modifies only the
`isPaused` flag (setting it to `true`); the status snapshot is unchanged
in every field except `is_paused`, which reads `true` afterwards. -/
theorem c8_pause_while_stopped (s : SimState) (now : Nat)
    (_h : s.isRunning = false) :
    pause s = { s with isPaused := true } ∧
    getStatus now (pause s) = { getStatus now s with is_paused := true } :=
  ⟨rfl, rfl⟩

/-- Witness for the amended C8 at the concrete stopped state. -/
theorem c8_pause_while_stopped_witness :
    pause c8State = { c8State with isPaused := true } ∧
    getStatus 0 (pause c8State) = { getStatus 0 c8State with is_paused := true } :=
  c8_pause_while_stopped c8State 0 rfl

/-- Lane table for the C9 counterexample: every lane of both ovens is
either at capacity (`full`) or `unavailable`, so allocation must fail. -/
def c9Lines : String → Line := fun id =>
  if id = "L1" ∨ id = "L2" ∨ id = "L3" ∨ id = "L4" then
    { status := .full, cars := List.replicate 14 "C1", capacity := 14, oven := "O1", lastBreakdown := 0 }
  else if id = "L5" then
    { status := .full, cars := List.replicate 16 "C1", capacity := 16, oven := "O2", lastBreakdown := 0 }
  else
    { status := .unavailable, cars := [], capacity := 16, oven := "O2", lastBreakdown := 20000 }

/-- A saturated state: 72 cars fill every non-broken lane, 46 are
processed, 2 remain in the backlog; allocation of the front car must
fail on both ovens. -/
def c9State : SimState :=
  { isRunning := true
    isPaused := false
    totalCarsProcessed := 46
    processedThisHour := 46
    hourStartTime := 0
    recentSequence := ["C1"]
    carBuffer := ["C1", "C2"]
    ovenO1 := { status := .active, lastToggle := 0 }
    ovenO2 := { status := .active, lastToggle := 0 }
    lines := c9Lines
    mainFeedingFrom := none
    mainCurrentCar := none
    lastFedLine := none
    activeAlerts := 0 }

/-- C9 counterexample: in `c9State` the first loop iteration dequeues
`C1`, fails to place it, and requeues it at the front — and the second
iteration of the same tick dequeues that same `C1` again (the dequeue
trace is `[C1, C1]`), bumping the alert counter twice.  The failed car
is therefore dequeued and re-attempted within the same tick, contrary
to the claim that its retry happens on the next tick at the earliest. -/
theorem c9_requeue_counterexample :
    (processIncomingCarsT true true c9State).2 = ["C1", "C1"] ∧
    (processIncomingCarsT true true c9State).1.carBuffer = ["C1", "C2"] ∧
    (processIncomingCarsT true true c9State).1.activeAlerts =
      c9State.activeAlerts + 2 := by
  refine ⟨?_, ?_, ?_⟩ <;> decide

/-- Spare buffer dichotomy of one allocation iteration, plus the
per-tick bound. -/
theorem allocOne_buffer (c : Bool) (s : SimState) :
    (allocOne c s).carBuffer = s.carBuffer ∨
    (allocOne c s).carBuffer = s.carBuffer.drop 1 := by
  rcases allocOne_cases c s with h | ⟨_, h⟩ | ⟨car, rest, lid, hbuf, _, _, h⟩ <;> rw [h]
  · left; rfl
  · left; rfl
  · right
    rw [hbuf]
    rfl

/-- C9 amended: a car whose allocation fails is reinserted at the front
of the backlog with the other cars' relative order unchanged (the
backlog is restored exactly); across a whole tick the backlog only ever
loses `k ≤ 2` cars off its front.  (The failed car may nevertheless be
dequeued and re-attempted again within the same tick, as the
counterexample shows.) -/
theorem c9_requeue_front (choice : Bool) (s : SimState) (car : Car)
    (rest : List Car) (hbuf : s.carBuffer = car :: rest) :
    ((allocOne choice s).carBuffer = rest ∨
      (allocOne choice s).carBuffer = car :: rest) ∧
    ∀ c1 c2 (s' : SimState), ∃ k, k ≤ 2 ∧
      (processIncomingCars c1 c2 s').carBuffer = s'.carBuffer.drop k := by
  constructor
  · rcases allocOne_cases choice s with h | ⟨_, h⟩ | ⟨car', rest', lid, hbuf', _, _, h⟩ <;>
      rw [h]
    · right
      exact hbuf
    · right
      exact hbuf
    · left
      rw [hbuf] at hbuf'
      cases hbuf'
      rfl
  · intro c1 c2 s'
    rcases processIncomingCars_cases c1 c2 s' with h | h | h <;> rw [h]
    · exact ⟨0, by omega, rfl⟩
    · rcases allocOne_buffer c1 s' with hb | hb
      · exact ⟨0, by omega, hb⟩
      · exact ⟨1, by omega, hb⟩
    · rcases allocOne_buffer c1 s' with hb1 | hb1 <;>
        rcases allocOne_buffer c2 (allocOne c1 s') with hb2 | hb2
      · refine ⟨0, by omega, ?_⟩
        show (allocOne c2 (allocOne c1 s')).carBuffer = s'.carBuffer.drop 0
        rw [hb2, hb1, List.drop_zero]
      · refine ⟨1, by omega, ?_⟩
        show (allocOne c2 (allocOne c1 s')).carBuffer = s'.carBuffer.drop 1
        rw [hb2, hb1]
      · refine ⟨1, by omega, ?_⟩
        show (allocOne c2 (allocOne c1 s')).carBuffer = s'.carBuffer.drop 1
        rw [hb2, hb1]
      · refine ⟨2, by omega, ?_⟩
        show (allocOne c2 (allocOne c1 s')).carBuffer = s'.carBuffer.drop 2
        rw [hb2, hb1, List.drop_drop]

/-- Witness for the amended C9 at the saturated state: the failed `C1`
is back at the front of an unchanged backlog. -/
theorem c9_requeue_front_witness :
    ((allocOne true c9State).carBuffer = ["C2"] ∨
      (allocOne true c9State).carBuffer = "C1" :: ["C2"]) ∧
    ∀ c1 c2 (s' : SimState), ∃ k, k ≤ 2 ∧
      (processIncomingCars c1 c2 s').carBuffer = s'.carBuffer.drop k :=
  c9_requeue_front true c9State "C1" ["C2"] rfl

end PaintShop
